import Mathlib

/-!
Verification of the HTML-to-record extraction core of `cuhk-timetable-exporter`.

The Python sources under `src/cuhk_timetable_export/` are shallowly embedded
here.  Python strings are modelled as `List Char`; Python dicts keyed by small
integers as association lists; `datetime.date` values as their proleptic
Gregorian rata-die day number (`Nat`), which makes Python's date comparison,
`timedelta` addition and `weekday()` ordinary `Nat` operations.  BeautifulSoup
documents are modelled as the structured values the parsers actually consult
(tables as lists of rows of cells carrying the texts / attributes the code
reads); fallible Python code that raises `ValueError` is modelled with
`Except String`.  `datetime.date.today()` is passed in as an explicit
parameter.  The fixed regular expressions of the source are embedded as
equivalent deterministic scanners (each scanner's doc comment names the regex
it implements; the fixed patterns involved backtrack only locally, so the
deterministic form is extensionally the regex's leftmost match).
-/

namespace CuhkTT

abbrev Str := List Char

/-- ASCII whitespace class of Python's `\s` / `str.strip()` (space, tab,
newline, carriage return, vertical tab, form feed). -/
def isSpc (c : Char) : Bool :=
  c = ' ' || c = '\t' || c = '\n' || c = '\r' || c = '\x0b' || c = '\x0c'

def isDigitC (c : Char) : Bool := 48 ≤ c.toNat && c.toNat ≤ 57

def digitVal? (c : Char) : Option Nat :=
  if isDigitC c then some (c.toNat - 48) else none

def isUpperC (c : Char) : Bool := 65 ≤ c.toNat && c.toNat ≤ 90

def isLowerC (c : Char) : Bool := 97 ≤ c.toNat && c.toNat ≤ 122

/-- `str.lower()` on one ASCII char. -/
def lowerC (c : Char) : Char :=
  if isUpperC c then Char.ofNat (c.toNat + 32) else c

def lowerS (s : Str) : Str := s.map lowerC

/-- Drop leading Python-whitespace: the left half of `str.strip()`. -/
def dropLeftWs : Str → Str
  | [] => []
  | c :: t => if isSpc c then dropLeftWs t else c :: t

/-- Python `str.strip()` (no argument): drop whitespace at both ends. -/
def pyStrip (s : Str) : Str :=
  ((dropLeftWs ((dropLeftWs s).reverse)).reverse)

/-- Python `str.rstrip(chars)` for a single strip char. -/
def rstripChar (ch : Char) (s : Str) : Str :=
  ((dropWhileChar ((s).reverse)).reverse)
where
  dropWhileChar : Str → Str
    | [] => []
    | c :: t => if c = ch then dropWhileChar t else c :: t

/-- Number of leading characters satisfying `p`. -/
def countLeading (p : Char → Bool) : Str → Nat
  | [] => 0
  | c :: t => if p c then countLeading p t + 1 else 0

/-- Decimal value of a digit string (used only on all-digit strings),
Python `int(s)`. -/
def natDec (s : Str) : Nat :=
  s.foldl (fun a c => a * 10 + ((digitVal? c).getD 0)) 0

/-- Substring test: Python `needle in hay`. -/
def hasSub (hay needle : Str) : Bool :=
  (List.range (hay.length + 1)).any (fun i => needle.isPrefixOf (hay.drop i))

/-- Case-insensitive substring test (`re.search(pat, s, re.I)` for a literal
pattern). -/
def hasSubCI (hay needle : Str) : Bool := hasSub (lowerS hay) (lowerS needle)

/-- Split on a single character, Python `s.split(ch)` (keeps empty pieces). -/
def splitChar (ch : Char) : Str → List Str
  | [] => [[]]
  | c :: t =>
    let r := splitChar ch t
    if c = ch then [] :: r
    else
      match r with
      | [] => [[c]]
      | p :: ps => (c :: p) :: ps

/-- Python `s.split()` with no argument: split on whitespace runs, dropping
empty tokens. -/
def wsTokens : Str → List Str
  | [] => []
  | c :: t =>
    if isSpc c then wsTokens t
    else
      match wsTokens t with
      | [] => [[c]]
      | p :: ps =>
        match t with
        | [] => [[c]]
        | c2 :: _ => if isSpc c2 then [c] :: p :: ps else (c :: p) :: ps

/-- Split on runs of commas / whitespace (`re.split("[,\\s]+", s)`), dropping
the empty pieces (an empty piece never normalizes to a day, so this is
downstream-equivalent to Python's list that may hold empty end pieces). -/
def sepTokens : Str → List Str
  | [] => []
  | c :: t =>
    if c = ',' || isSpc c then sepTokens t
    else
      match sepTokens t with
      | [] => [[c]]
      | p :: ps =>
        match t with
        | [] => [[c]]
        | c2 :: _ => if c2 = ',' || isSpc c2 then [c] :: p :: ps else (c :: p) :: ps

/-- Python truthy-or on strings: `a or b`. -/
def orS (a b : Str) : Str := if a = [] then b else a

/-!  ## Dates

`datetime.date` is modelled by its proleptic Gregorian rata-die number
(day 1 = 0001-01-01).  Python's date ordering is the `Nat` order, `weekday()`
(Monday = 0) is `(rd - 1) % 7`, and `date + timedelta(days = k)` is `rd + k`.
-/

abbrev Date := Nat

def isLeap (y : Nat) : Bool := (y % 4 = 0 && y % 100 ≠ 0) || y % 400 = 0

def monthLen (y m : Nat) : Nat :=
  if m = 2 then (if isLeap y then 29 else 28)
  else if m = 4 || m = 6 || m = 9 || m = 11 then 30
  else 31

def daysBeforeMonth (y m : Nat) : Nat :=
  (List.range m).foldl (fun a i => if i = 0 then a else a + monthLen y i) 0

/-- Rata-die number of year/month/day (valid input assumed). -/
def rataDie (y m d : Nat) : Nat :=
  365 * (y - 1) + (y - 1) / 4 + (y - 1) / 400 + daysBeforeMonth y m + d - (y - 1) / 100

/-- `datetime.date(y, m, d)` with its `ValueError` on invalid components. -/
def mkDate? (y m d : Nat) : Option Date :=
  if 1 ≤ y && y ≤ 9999 && 1 ≤ m && m ≤ 12 && 1 ≤ d && d ≤ monthLen y m then
    some (rataDie y m d)
  else none

/-- `date.weekday()`: Monday = 0 … Sunday = 6. -/
def weekdayOf (d : Date) : Nat := (d - 1) % 7

/-!  ## Time-range parsing

Both modules define `_parse_time_range` with the regex

  `(\d{1,2}):(\d{2})\s*(AM|PM|am|pm)?\s*SEP\s*(\d{1,2}):(\d{2})\s*(AM|PM|am|pm)?`

(`re.search`), where SEP is `[-–]` in `schedule_html.py` and `-` (plain hyphen
only) in `teaching_html.py`.  The scanner below is the deterministic
equivalent: for this pattern the greedy/backtracking behaviour collapses
(a digit is never a `:`;  a whitespace char never starts `AM`/`PM`/the
separator), so trying 2 digits with a `:` lookahead, then 1, and committing to
spaces / an optional marker, is exactly the regex's leftmost match.
-/

inductive Meridiem | AM | PM
deriving DecidableEq, Repr

/-- `(\d{1,2}):(\d{2})` at the start of the input; returns (hour, minute,
rest). -/
def readHM (s : Str) : Option (Nat × Nat × Str) :=
  match s with
  | c1 :: c2 :: rest =>
    match digitVal? c1, digitVal? c2 with
    | some d1, some d2 =>
      match rest with
      | ':' :: c3 :: c4 :: r2 =>
        match digitVal? c3, digitVal? c4 with
        | some m1, some m2 => some (10 * d1 + d2, 10 * m1 + m2, r2)
        | _, _ => none
      | _ => none
    | some d1, none =>
      if c2 = ':' then
        match rest with
        | c3 :: c4 :: r2 =>
          match digitVal? c3, digitVal? c4 with
          | some m1, some m2 => some (d1, 10 * m1 + m2, r2)
          | _, _ => none
        | _ => none
      else none
    | none, _ => none
  | _ => none

/-- Greedily consume `\s*`. -/
def skipWs : Str → Str
  | [] => []
  | c :: t => if isSpc c then skipWs t else c :: t

/-- `(AM|PM|am|pm)?` (no `re.I`: exactly these four spellings). -/
def takeMarker (s : Str) : Option Meridiem × Str :=
  match s with
  | c1 :: c2 :: r =>
    if c1 = 'A' && c2 = 'M' then (some .AM, r)
    else if c1 = 'P' && c2 = 'M' then (some .PM, r)
    else if c1 = 'a' && c2 = 'm' then (some .AM, r)
    else if c1 = 'p' && c2 = 'm' then (some .PM, r)
    else (none, s)
  | _ => (none, s)

/-- One attempt of the whole time-range pattern anchored at the start of
`s`; `seps` is the separator character class. -/
def matchTimeRangeAt (seps : List Char) (s : Str) :
    Option (Nat × Nat × Option Meridiem × Nat × Nat × Option Meridiem) :=
  match readHM s with
  | none => none
  | some (h1, m1, r1) =>
    let (ap1, r3) := takeMarker (skipWs r1)
    match skipWs r3 with
    | [] => none
    | c :: r5 =>
      if c ∈ seps then
        match readHM (skipWs r5) with
        | none => none
        | some (h2, m2, r7) =>
          let (ap2, _) := takeMarker (skipWs r7)
          some (h1, m1, ap1, h2, m2, ap2)
      else none

/-- `re.search`: try the pattern at each start position, leftmost first. -/
def searchTimeRange (seps : List Char) : Str →
    Option (Nat × Nat × Option Meridiem × Nat × Nat × Option Meridiem)
  | [] => none
  | c :: t => (matchTimeRangeAt seps (c :: t)).orElse (fun _ => searchTimeRange seps t)

/-- Python `f"{n:02d}"` for `n ≤ 99` (every hour/minute the code formats). -/
def pad2 (n : Nat) : Str :=
  if n < 10 then ['0', Nat.digitChar n] else [Nat.digitChar (n / 10), Nat.digitChar (n % 10)]

/-- The inner `to_24` of both `_parse_time_range`s: 12-hour to 24-hour hour
adjustment, then `f"{hour:02d}:{minute:02d}"`. -/
def to24 (h m : Nat) (ap : Option Meridiem) : Str :=
  let hour := match ap with
    | some .AM => if h = 12 then 0 else h
    | some .PM => if h ≠ 12 then h + 12 else h
    | none => h
  pad2 hour ++ ':' :: pad2 m

/-- `teaching_html._parse_time_range` (separator: plain hyphen only). -/
def parse_time_range_teaching (s : Str) : Option (Str × Str) :=
  (searchTimeRange ['-'] s).map
    (fun g => (to24 g.1 g.2.1 g.2.2.1, to24 g.2.2.2.1 g.2.2.2.2.1 g.2.2.2.2.2))

/-- `schedule_html._parse_time_range` (separator class `[-–]`: hyphen or
en-dash). -/
def parse_time_range_schedule (s : Str) : Option (Str × Str) :=
  (searchTimeRange ['-', '–'] s).map
    (fun g => (to24 g.1 g.2.1 g.2.2.1, to24 g.2.2.2.1 g.2.2.2.2.1 g.2.2.2.2.2))

/-!  ## Day normalization and class-code splitting -/

/-- The day map shared (with identical key/value insertion order) by
`teaching_html._normalize_day` and `schedule_html._DAY_MAP`. -/
def dayMap : List (Str × Str) :=
  [("mo".data, "Mon".data), ("mon".data, "Mon".data), ("monday".data, "Mon".data),
   ("tu".data, "Tue".data), ("tue".data, "Tue".data), ("tues".data, "Tue".data),
   ("tuesday".data, "Tue".data),
   ("we".data, "Wed".data), ("wed".data, "Wed".data), ("weds".data, "Wed".data),
   ("wednesday".data, "Wed".data),
   ("th".data, "Thu".data), ("thu".data, "Thu".data), ("thur".data, "Thu".data),
   ("thurs".data, "Thu".data), ("thursday".data, "Thu".data),
   ("fr".data, "Fri".data), ("fri".data, "Fri".data), ("friday".data, "Fri".data),
   ("sa".data, "Sat".data), ("sat".data, "Sat".data), ("saturday".data, "Sat".data),
   ("su".data, "Sun".data), ("sun".data, "Sun".data), ("sunday".data, "Sun".data)]

/-- `_normalize_day` (both modules).  `schedule_html` first tries an exact
dict lookup, but every exact key is also found by the prefix loop with the
same value, so the two modules agree and the prefix loop models both. -/
def normalize_day (text : Str) : Option Str :=
  let t := lowerS (pyStrip text)
  (dayMap.find? (fun kv => kv.1.isPrefixOf t)).map (·.2)

/-- `_WEEKDAY_INDEX` (both modules). -/
def weekdayIndex : List (Str × Nat) :=
  [("Mon".data, 0), ("Tue".data, 1), ("Wed".data, 2), ("Thu".data, 3),
   ("Fri".data, 4), ("Sat".data, 5), ("Sun".data, 6)]

/-- `_first_date_for_weekday` (both modules): first date on/after `start`
with the given weekday name; unknown names return `start` unchanged.
Python's `(target - start.weekday()) % 7` on ints in `0..6` equals the `Nat`
expression used here. -/
def first_date_for_weekday (start : Date) (weekdayName : Str) : Date :=
  match (weekdayIndex.find? (fun kv => kv.1 = weekdayName)).map (·.2) with
  | none => start
  | some target => start + (target + 7 - weekdayOf start) % 7

/-- The `(.*)$` tail common to both class-code regexes.  `.` never matches a
newline and `$` matches only at the end of the string or just before a final
newline, so the group is the whole remainder when it holds no newline, the
remainder minus a sole trailing newline, and the regex fails to match on any
other remainder (interior newline).  The trailing-newline case is
unreachable after `strip()` but kept for exactness. -/
def regexTail (rest : Str) : Option Str :=
  if '\n' ∉ rest then some rest
  else if rest.getLast? = some '\n' ∧ '\n' ∉ rest.dropLast then some rest.dropLast
  else none

/-- `teaching_html._split_class_code`: regex `^([A-Z]{4})(\d{4})(.*)$` on the
stripped input — exactly four uppercase letters, exactly four digits, then a
`(.*)$` remainder group (`regexTail`); any failure, including a newline
inside the remainder, takes the `("", stripped, "")` fallback. -/
def split_class_code_teaching (code : Str) : Str × Str × Str :=
  let s := pyStrip code
  if (s.take 4).length = 4 && (s.take 4).all isUpperC
      && ((s.drop 4).take 4).length = 4 && ((s.drop 4).take 4).all isDigitC then
    match regexTail (s.drop 8) with
    | some sec => (s.take 4, (s.drop 4).take 4, sec)
    | none => ([], s, [])
  else ([], s, [])

/-- `schedule_html._split_class_code`: regex `^([A-Z]{2,6})(\d{3,4})(.*)$` on
the stripped input.  Deterministic form of the regex: with `L` the maximal
leading run of `A-Z` and `D` the maximal digit run after it, the letter and
digit groups match iff `2 ≤ L ≤ 6` and `3 ≤ D` (backtracking to fewer
letters always meets a letter where a digit is required), taking `min D 4`
digits greedily; `(.*)$` is `regexTail` of the remainder, and giving a digit
back to the remainder never rescues a remainder `regexTail` rejects (the new
leading digit leaves every newline interior), so failure there is final. -/
def split_class_code_schedule (code : Str) : Str × Str × Str :=
  let s := pyStrip code
  let L := countLeading isUpperC s
  let rest := s.drop L
  let D := countLeading isDigitC rest
  if 2 ≤ L && L ≤ 6 && 3 ≤ D then
    let k := if 4 ≤ D then 4 else 3
    match regexTail (rest.drop k) with
    | some sec => (s.take L, rest.take k, sec)
    | none => ([], s, [])
  else ([], s, [])

/-- The course-code line regex of `_parse_weekly_grid` /
`parse_weekly_grid_dated`: `^([A-Z]{2,6})\s*(\d{3,4})\s*[-–]?\s*(.*)$` via
`re.match` on the stripped line.  Same deterministic reading as
`split_class_code_schedule`, with optional whitespace, one optional dash and
more whitespace consumed before the remainder group. -/
def matchCourseLine (s : Str) : Option (Str × Str × Str) :=
  let L := countLeading isUpperC s
  let afterL := skipWs (s.drop L)
  let D := countLeading isDigitC afterL
  if 2 ≤ L && L ≤ 6 && 3 ≤ D then
    let k := if 4 ≤ D then 4 else 3
    let rest0 := skipWs (afterL.drop k)
    let rest1 := match rest0 with
      | c :: t => if c = '-' || c = '–' then skipWs t else rest0
      | [] => rest0
    some (s.take L, afterL.take k, rest1)
  else none

/-- `schedule_html._parse_day_pattern`. -/
def parse_day_pattern (text : Str) : List Str :=
  let t := pyStrip text
  if t = [] then []
  else
    let concatDays :=
      if t.length % 2 = 0 && t.length ≥ 2
          && (List.range (t.length / 2)).all (fun i =>
              isUpperC (t.getD (2 * i) ' ') && isLowerC (t.getD (2 * i + 1) ' ')) then
        ((List.range (t.length / 2)).filterMap
          (fun i => normalize_day ((t.drop (2 * i)).take 2)))
      else []
    if concatDays ≠ [] then concatDays
    else
      (sepTokens t).foldl
        (fun days tok =>
          match normalize_day tok with
          | some d => if d ∈ days then days else days ++ [d]
          | none => days) []

/-!  ## Teaching-timetable module (`teaching_html.py`)

A table is modelled as its `<tr>` list; a row as its cell list, each cell a
`(isTh, text)` pair where `text` stands for `get_text(strip=True)` applied at
every read site via `pyStrip`. -/

abbrev TRow := List (Bool × Str)

structure TTable where
  gvDetail : Bool
  rows : List TRow
deriving Repr

/-- td texts of a row (`tr.find_all("td")` + `get_text(strip=True)`). -/
def tdTexts (row : TRow) : List Str :=
  row.filterMap (fun c => if c.1 then none else some (pyStrip c.2))

/-- All-cell texts of the first row that has any cell: the header row
(`tr.find_all(["th", "td"])`). -/
def headerTexts (t : TTable) : Option (List Str) :=
  (t.rows.find? (fun r => !r.isEmpty)).map (List.map (fun c => pyStrip c.2))

/-- The header vocabulary set of `_guess_timetable_table`. -/
def wantedKeys : List Str :=
  ["subject".data, "course".data, "catalog".data, "section".data, "class".data,
   "day".data, "time".data, "period".data, "room".data, "venue".data,
   "instructor".data, "teacher".data, "teaching".data]

/-- Heuristic score of `_guess_timetable_table`: `None` when the table is not
a candidate. -/
def tableScore (t : TTable) : Option Nat :=
  match headerTexts t with
  | none => none
  | some hs =>
    let keys := hs.map lowerS
    if "period".data ∈ keys ∨ "time".data ∈ keys then
      let sc := (wantedKeys.filter (fun w => w ∈ keys)).length
      if sc = 0 then none else some sc
    else none

/-- `_guess_timetable_table`: the `gv_detail` table if present, else the
highest-scoring candidate (earliest wins ties, as Python's stable sort). -/
def guess_timetable_table (soup : List TTable) : Option TTable :=
  match soup.find? (·.gvDetail) with
  | some t => some t
  | none =>
    match soup.filterMap (fun t => (tableScore t).map (fun s => (s, t))) with
    | [] => none
    | c :: cs => some (cs.foldl (fun best x => if x.1 > best.1 then x else best) c).2

def validPart12 (p : Str) : Prop := 1 ≤ p.length ∧ p.length ≤ 2 ∧ p.all isDigitC

instance : DecidablePred validPart12 := fun p => by unfold validPart12; infer_instance

def validPart4 (p : Str) : Prop := p.length = 4 ∧ p.all isDigitC

instance : DecidablePred validPart4 := fun p => by unfold validPart4; infer_instance

/-- Python `s.split(sep, 1)` when `sep` occurs: the pieces around the first
occurrence; `none` when `sep` does not occur (covers the `" - " in text`
guards). -/
def splitFirstSub (sep : Str) : Str → Option (Str × Str)
  | [] => none
  | c :: t =>
    if sep.isPrefixOf (c :: t) then some ([], (c :: t).drop sep.length)
    else (splitFirstSub sep t).map (fun p => (c :: p.1, p.2))

/-- `_parse_meeting_date_token`: `^(\d{1,2})/(\d{1,2})/(\d{4})$` (HK
day/month/year) else `^(\d{1,2})/(\d{1,2})$` with the year hint
(`year_hint or date.today().year` — a `0` hint falls back to today). -/
def parse_meeting_date_token (token : Str) (yearHint : Option Nat)
    (todayYear : Nat) : Option Date :=
  let t := pyStrip token
  if t = [] then none
  else
    match splitChar '/' t with
    | [a, b, c] =>
      if validPart12 a ∧ validPart12 b ∧ validPart4 c then
        mkDate? (natDec c) (natDec b) (natDec a)
      else none
    | [a, b] =>
      if validPart12 a ∧ validPart12 b then
        let y := match yearHint with
          | some h => if h = 0 then todayYear else h
          | none => todayYear
        mkDate? y (natDec b) (natDec a)
      else none
    | _ => none

/-- `_parse_meeting_dates_cell`: a `"d1 - d2"` range or a comma list. -/
def parse_meeting_dates_cell (cellText : Str) (yearHint : Option Nat)
    (todayYear : Nat) : List Date :=
  let t := pyStrip cellText
  if t = [] then []
  else
    match splitFirstSub " - ".data t with
    | some (a, b) =>
      [a, b].filterMap (fun p => parse_meeting_date_token (pyStrip p) yearHint todayYear)
    | none =>
      (splitChar ',' t).filterMap (fun tok => parse_meeting_date_token tok yearHint todayYear)

/-- First-pass year hint of `_infer_term_dates_from_table`: the year of the
first `d/m/yyyy` side of the first `" - "` range cell that has one. -/
def rangeYearHint (txt : Str) : Option Nat :=
  match splitFirstSub " - ".data txt with
  | none => none
  | some (a, b) =>
    [a, b].findSome? (fun p =>
      match splitChar '/' (pyStrip p) with
      | [x, y, z] =>
        if validPart12 x ∧ validPart12 y ∧ validPart4 z then some (natDec z) else none
      | _ => none)

/-- The Meeting-Date column texts `_infer_term_dates_from_table` collects. -/
def meetingCellTexts (t : TTable) (idx : Nat) : List Str :=
  t.rows.filterMap (fun row =>
    let tds := tdTexts row
    if tds = [] ∨ tds.length ≤ idx then none else tds.get? idx)

/-- `_infer_term_dates_from_table`: `(min, max)` of all dates parsed from the
Meeting Date column, with the range-cell year hint (today's year when no
range cell supplies one). -/
def infer_term_dates_from_table (t : TTable) (headerKeys : List Str)
    (todayYear : Nat) : Option Date × Option Date :=
  match headerKeys.findIdx? (fun k => hasSub k "meeting".data && hasSub k "date".data) with
  | none => (none, none)
  | some idx =>
    let cellTexts := meetingCellTexts t idx
    let yearHint := (cellTexts.findSome? rangeYearHint).getD todayYear
    match cellTexts.flatMap
        (fun txt => parse_meeting_dates_cell txt (some yearHint) todayYear) with
    | [] => (none, none)
    | d :: ds => (some (ds.foldl Nat.min d), some (ds.foldl Nat.max d))

/-- `_record_matches_selected`, on the record's raw class code and class
number. -/
def record_matches_selected (codeRaw nbr : Str) (selected : List Str) : Bool :=
  let code := pyStrip codeRaw
  let n := pyStrip nbr
  selected.any (fun s0 =>
    let t := pyStrip s0
    if t = [] then false
    else decide ((n ≠ [] ∧ n = t) ∨
      (code ≠ [] ∧ (t = code ∨ t.isPrefixOf code ∨ hasSub code t))))

/-- The canonical meeting record (the dict keys of both parsers). -/
structure MRec where
  CLASS_CODE_RAW : Str
  CLASS_NBR : Str
  SUBJECT : Str
  CATALOG_NBR : Str
  CLASS_SECTION : Str
  DESCR : Str
  INSTRUCTORS : Str
  FDESCR : Str
  COMDESC : Str
  START_DT : Date
  END_DT : Date
  MEETING_TIME_START : Str
  MEETING_TIME_END : Str
deriving DecidableEq, Repr

/-- The per-row locals of `parse_teaching_html`'s column-mapping loop. -/
structure RowVals where
  subj : Str := []
  catalog : Str := []
  sect : Str := []
  title : Str := []
  instr : Str := []
  day : Str := []
  timeRange : Str := []
  room : Str := []
  codeRaw : Str := []
  classNbr : Str := []
deriving Repr

/-- One `key, val` step of the `zip(header_keys, row)` elif-chain. -/
def assignField (v : RowVals) (key val : Str) : RowVals :=
  if hasSub key "class code".data ∧ val ≠ [] then
    if v.subj = [] ∧ v.catalog = [] ∧ v.sect = [] then
      { v with
        codeRaw := val
        subj := (split_class_code_teaching val).1
        catalog := (split_class_code_teaching val).2.1
        sect := (split_class_code_teaching val).2.2 }
    else { v with codeRaw := val }
  else if hasSub key "class nbr".data ∧ val ≠ [] then { v with classNbr := val }
  else if hasSub key "subject".data ∧ v.subj = [] then { v with subj := val }
  else if (hasSub key "course title".data ∨ hasSub key "title".data ∨
      hasSub key "descr".data) ∧ v.title = [] then { v with title := val }
  else if (hasSub key "course".data ∨ hasSub key "catalog".data) ∧ v.catalog = []
      ∧ ¬ hasSub key "class nbr".data then { v with catalog := val }
  else if (hasSub key "section".data ∨ hasSub key "class".data) ∧ v.sect = []
      ∧ ¬ hasSub key "class nbr".data then { v with sect := val }
  else if (hasSub key "instructor".data ∨ hasSub key "teacher".data ∨
      hasSub key "teaching staff".data) ∧ v.instr = [] then { v with instr := val }
  else if hasSub key "period".data then
    match wsTokens val with
    | [] => { v with timeRange := val }
    | d :: _ => { v with timeRange := val, day := d }
  else if hasSub key "day".data ∧ v.day = [] then { v with day := val }
  else if hasSub key "time".data ∧ v.timeRange = [] then { v with timeRange := val }
  else if (hasSub key "room".data ∨ hasSub key "venue".data ∨
      hasSub key "location".data) ∧ v.room = [] then { v with room := val }
  else v

/-- The teaching extractor's `seen_slot` de-duplication key:
`(current class code, current class nbr, normalized day, raw time text)`. -/
abbrev TKey := Str × Str × Str × Str

/-- The fold state of `parse_teaching_html`'s main row loop.  `recsK` is
`records` with, next to each appended record, the `slot_key` under which it
was admitted past `seen_slot`. -/
structure TState where
  curCode : Str := []
  curNbr : Str := []
  curSubj : Str := []
  curCat : Str := []
  curSec : Str := []
  curTitle : Str := []
  curInstr : Str := []
  seen : List TKey := []
  recsK : List (TKey × MRec) := []

/-- The `zip(header_keys, row)` elif-chain over one row's cells. -/
def rowValsOf (headerKeys : List Str) (tds : List Str) : RowVals :=
  (headerKeys.zip tds).foldl (fun v kv => assignField v kv.1 kv.2) {}

/-- The current-course carry-forward update: a row supplying a class code or
class number starts a new identity. -/
def teachCarry (st : TState) (v : RowVals) : TState :=
  if v.codeRaw ≠ [] ∨ v.classNbr ≠ [] then
    let sA := { st with curCode := v.codeRaw, curNbr := v.classNbr }
    let sB := if v.subj ≠ [] ∨ v.catalog ≠ [] ∨ v.sect ≠ [] then
        { sA with curSubj := v.subj, curCat := v.catalog, curSec := v.sect }
      else sA
    let sC := if v.title ≠ [] then { sB with curTitle := v.title } else sB
    if v.instr ≠ [] then { sC with curInstr := v.instr } else sC
  else st

/-- De-duplication, record construction, selection filter and append, for a
row with valid day `dn` and parsed times `tse`. -/
def teachEmit (termStart endD : Date) (subjectHint : Str) (selectedSet : List Str)
    (v : RowVals) (dn : Str) (tse : Str × Str) (st1 : TState) : TState :=
  let key : TKey := (st1.curCode, st1.curNbr, dn, v.timeRange)
  if key ∈ st1.seen then st1
  else
    let st2 := { st1 with seen := key :: st1.seen }
    let subjF := orS (orS v.subj st2.curSubj) subjectHint
    let catF := orS v.catalog st2.curCat
    let rec0 : MRec := {
      CLASS_CODE_RAW := st2.curCode, CLASS_NBR := st2.curNbr,
      SUBJECT := subjF, CATALOG_NBR := catF,
      CLASS_SECTION := orS v.sect st2.curSec,
      DESCR := orS (orS v.title st2.curTitle) catF,
      INSTRUCTORS := orS v.instr st2.curInstr,
      FDESCR := v.room,
      COMDESC := orS subjF subjectHint,
      START_DT := first_date_for_weekday termStart dn,
      END_DT := endD,
      MEETING_TIME_START := tse.1, MEETING_TIME_END := tse.2 }
    if selectedSet ≠ [] ∧
        ¬ record_matches_selected rec0.CLASS_CODE_RAW rec0.CLASS_NBR selectedSet then
      st2
    else { st2 with recsK := st2.recsK ++ [(key, rec0)] }

/-- One `<tr>` iteration of `parse_teaching_html`'s main loop. -/
def teachRowStep (headerKeys : List Str) (termStart endD : Date)
    (subjectHint : Str) (selectedSet : List Str) (st : TState) (row : TRow) :
    TState :=
  let tds := tdTexts row
  if tds = [] ∨ tds.length ≠ headerKeys.length then st
  else
    let v := rowValsOf headerKeys tds
    let st1 := teachCarry st v
    let dayNorm := if v.day ≠ [] then normalize_day v.day else none
    let times := if v.timeRange ≠ [] then parse_time_range_teaching v.timeRange else none
    match dayNorm, times with
    | some dn, some tse => teachEmit termStart endD subjectHint selectedSet v dn tse st1
    | _, _ => st1

/-- The shared final stage of both extractors: raise when the record list is
empty (`if not records: raise ValueError(...)`), else return it. -/
def finishNonempty (l : List α) (msg : String) : Except String (List α) :=
  if l.isEmpty then .error msg else .ok l

/-- The shared term-date gate: with both dates resolved, run the record loop
and the empty check; otherwise raise the term-date error. -/
def finishIfDates (se : Option Date × Option Date) (build : Date → Date → List α)
    (msgEmpty msgDates : String) : Except String (List α) :=
  match se.1, se.2 with
  | some ts, some te => finishNonempty (build ts te) msgEmpty
  | _, _ => .error msgDates

/-- `parse_teaching_html`, with each emitted record paired with its
`slot_key`.  Dates are passed as resolved `Date` values (the source's
ISO-string round trip is the identity); `subjectHint = []` models `None`. -/
def parse_teaching_html_keyed (soup : List TTable) (startDate endDate : Option Date)
    (subjectHint : Str) (selectedClasses : List Str) (todayYear : Nat) :
    Except String (List (TKey × MRec)) :=
  match guess_timetable_table soup with
  | none => .error "Could not find timetable table in HTML."
  | some table =>
    match headerTexts table with
    | none => .error "Timetable table has no header row."
    | some headerRow =>
      let headerKeys := headerRow.map lowerS
      let se : Option Date × Option Date :=
        if startDate.isNone ∨ endDate.isNone then
          let inf := infer_term_dates_from_table table headerKeys todayYear
          (startDate <|> inf.1, endDate <|> inf.2)
        else (startDate, endDate)
      let selectedSet := (selectedClasses.map pyStrip).filter (fun s => s ≠ [])
      finishIfDates se
        (fun ts te => (table.rows.foldl
          (teachRowStep headerKeys ts te subjectHint selectedSet) {}).recsK)
        "No class rows with valid day and time found in the HTML file."
        "Could not infer term dates from HTML (Meeting Date column)."

/-- `parse_teaching_html` proper: the record list. -/
def parse_teaching_html (soup : List TTable) (startDate endDate : Option Date)
    (subjectHint : Str) (selectedClasses : List Str) (todayYear : Nat) :
    Except String (List MRec) :=
  (parse_teaching_html_keyed soup startDate endDate subjectHint selectedClasses
    todayYear).map (List.map (·.2))

/-!  ## Weekly-schedule module (`schedule_html.py`)

The weekly table is modelled per row: header `<th>` texts and `<td>` cells
(background-color flag, `rowspan` attribute, optional `<span>` line list —
the `get_text(separator="\n")` split, stripped/filtered at the read site). -/

structure SCell where
  hasBg : Bool
  rowspan : Nat := 1
  spanLines : Option (List Str) := none
deriving Repr

structure SRow where
  ths : List Str := []
  tds : List SCell := []
deriving Repr

abbrev STable := List SRow

/-- `rowspan_remaining`: association list column ↦ remaining reserved rows
(entries always positive; `resLookup = 0` means absent, matching the
source's delete-at-zero discipline). -/
abbrev Res := List (Nat × Nat)

def resLookup (res : Res) (c : Nat) : Nat :=
  ((res.find? (fun p => p.1 = c)).map (·.2)).getD 0

def resDec (res : Res) (c : Nat) : Res :=
  res.filterMap (fun p =>
    if p.1 = c then (if p.2 ≤ 1 then none else some (p.1, p.2 - 1)) else some p)

def resSet (res : Res) (c v : Nat) : Res :=
  (c, v) :: res.filter (fun p => p.1 ≠ c)

def resSum (res : Res) : Nat := (res.map (·.2)).sum

theorem resDec_cons (k v c : Nat) (t : Res) :
    resDec ((k, v) :: t) c =
      if k = c then (if v ≤ 1 then resDec t c else (k, v - 1) :: resDec t c)
      else (k, v) :: resDec t c := by
  by_cases hk : k = c <;> by_cases hv : v ≤ 1 <;>
    simp [resDec, List.filterMap_cons, hk, hv]

theorem resSum_cons (k v : Nat) (t : Res) :
    resSum ((k, v) :: t) = v + resSum t := by
  simp [resSum]

theorem resLookup_cons (k v c : Nat) (t : Res) :
    resLookup ((k, v) :: t) c = if k = c then v else resLookup t c := by
  by_cases hk : k = c <;> simp [resLookup, List.find?_cons, hk]

theorem resSum_resDec_le (res : Res) (c : Nat) : resSum (resDec res c) ≤ resSum res := by
  induction res with
  | nil => simp [resDec, resSum]
  | cons hd t ih =>
    obtain ⟨k, v⟩ := hd
    rw [resDec_cons, resSum_cons]
    by_cases hk : k = c
    · by_cases hv : v ≤ 1
      · rw [if_pos hk, if_pos hv]; omega
      · rw [if_pos hk, if_neg hv, resSum_cons]; omega
    · rw [if_neg hk, resSum_cons]; omega

theorem resSum_resDec_lt (res : Res) (c : Nat) (h : 0 < resLookup res c) :
    resSum (resDec res c) < resSum res := by
  induction res with
  | nil => simp [resLookup] at h
  | cons hd t ih =>
    obtain ⟨k, v⟩ := hd
    rw [resLookup_cons] at h
    rw [resDec_cons, resSum_cons]
    by_cases hk : k = c
    · rw [if_pos hk] at h ⊢
      have hle := resSum_resDec_le t c
      by_cases hv : v ≤ 1
      · rw [if_pos hv]; omega
      · rw [if_neg hv, resSum_cons]; omega
    · rw [if_neg hk] at h ⊢
      rw [resSum_cons]
      have := ih h
      omega

/-- The inner `while col in rowspan_remaining …` loop shared by
`_determine_col_index_for_cell` and `_determine_day_for_cell`, with explicit
fuel so that the kernel can evaluate it: skip columns reserved by active
rowspans, decrementing each (and deleting it at zero), advancing `col`. -/
def skipReservedGo : Nat → Res → Nat → Res × Nat
  | 0, res, col => (res, col)
  | fuel + 1, res, col =>
    if 0 < resLookup res col then skipReservedGo fuel (resDec res col) (col + 1)
    else (res, col)

/-- The while loop proper: every iteration strictly decreases `resSum`, so
`resSum res` steps of fuel always suffice (`skipReservedGo_fuel` below shows
the result is fuel-independent from there on — this is exactly the source's
unbounded loop). -/
def skipReserved (res : Res) (col : Nat) : Res × Nat :=
  skipReservedGo (resSum res) res col

theorem resLookup_le_resSum (res : Res) (c : Nat) : resLookup res c ≤ resSum res := by
  induction res with
  | nil => simp [resLookup, resSum]
  | cons hd t ih =>
    obtain ⟨k, v⟩ := hd
    rw [resLookup_cons, resSum_cons]
    by_cases hk : k = c
    · rw [if_pos hk]; omega
    · rw [if_neg hk]; omega

theorem skipReservedGo_fuel (fuel fuel2 : Nat) (res : Res) (col : Nat)
    (h : resSum res ≤ fuel) (h2 : resSum res ≤ fuel2) :
    skipReservedGo fuel res col = skipReservedGo fuel2 res col := by
  induction fuel generalizing fuel2 res col with
  | zero =>
    have hz : resLookup res col = 0 := by
      have := resLookup_le_resSum res col
      omega
    cases fuel2 with
    | zero => rfl
    | succ f2 =>
      simp [skipReservedGo, hz]
  | succ f ih =>
    cases fuel2 with
    | zero =>
      have hz : resLookup res col = 0 := by
        have := resLookup_le_resSum res col
        omega
      simp [skipReservedGo, hz]
    | succ f2 =>
      simp only [skipReservedGo]
      by_cases hl : 0 < resLookup res col
      · rw [if_pos hl, if_pos hl]
        have hlt := resSum_resDec_lt res col hl
        exact ih f2 (resDec res col) (col + 1) (by omega) (by omega)
      · rw [if_neg hl, if_neg hl]

/-- The per-row cell walk, returning the final reservation state and the
column assigned to the cell at index `tIdx` (the `cell is td` early return). -/
def findInRow (cells : List SCell) (res : Res) (col : Nat) (tIdx : Nat) :
    Res × Option Nat :=
  match cells with
  | [] => (res, none)
  | cell :: rest =>
    let p := skipReserved res col
    let res2 := if cell.rowspan > 1 then resSet p.1 p.2 (cell.rowspan - 1) else p.1
    match tIdx with
    | 0 => (res2, some p.2)
    | tIdx' + 1 => findInRow rest res2 (p.2 + 1) tIdx'

/-- The same per-row walk, recording every cell's assigned column (the
`grid[row_idx][col] = cell` accounting of `_determine_day_for_cell`). -/
def rowColsAssign (cells : List SCell) (res : Res) (col : Nat) : Res × List Nat :=
  match cells with
  | [] => (res, [])
  | cell :: rest =>
    let p := skipReserved res col
    let res2 := if cell.rowspan > 1 then resSet p.1 p.2 (cell.rowspan - 1) else p.1
    let q := rowColsAssign rest res2 (p.2 + 1)
    (q.1, p.2 :: q.2)

/-- Replay over the data rows (header skipped): for each row, the reservation
state at its start and the column assigned to each of its td cells.  This is
the specification's replay algorithm for the whole table. -/
def walkRows (res : Res) : List SRow → List (Res × List Nat)
  | [] => []
  | r :: rs =>
    let q := rowColsAssign r.tds res 0
    (res, q.2) :: walkRows q.1 rs

/-- The column of every td of every data row, by the replay. -/
def gridCols (t : STable) : List (List Nat) := (walkRows [] (t.drop 1)).map (·.2)

/-- `_determine_col_index_for_cell`'s row loop, the target cell named by
(row-relative-to-data, cell index). -/
def detColGo (res : Res) : List SRow → Nat → Nat → Option Nat
  | [], _, _ => none
  | r :: _, 0, i => (findInRow r.tds res 0 i).2
  | r :: rs, rRel + 1, i => detColGo (rowColsAssign r.tds res 0).1 rs rRel i

/-- `_determine_col_index_for_cell`: target cell = td number `cIdx` of row
number `rIdx` (row 0 is the header, which the loop skips, so a header target
is never found). -/
def determine_col_index_for_cell (t : STable) (rIdx cIdx : Nat) : Option Nat :=
  match rIdx with
  | 0 => none
  | r + 1 => detColGo [] (t.drop 1) r cIdx

/-- `_determine_day_for_cell`: the identical walk (the source duplicates the
accounting loop), returning `day_columns.get(col)` at the target instead of
`col`. -/
def determine_day_for_cell (t : STable) (dayCols : List (Nat × Str))
    (rIdx cIdx : Nat) : Option Str :=
  match determine_col_index_for_cell t rIdx cIdx with
  | none => none
  | some col => (dayCols.find? (fun p => p.1 = col)).map (·.2)

/-- `day_columns` of `_parse_weekly_grid`: header-`<th>` index ↦ normalized
first word. -/
def dayColumnsOf (t : STable) : List (Nat × Str) :=
  match t with
  | [] => []
  | r0 :: _ =>
    r0.ths.enum.filterMap (fun p =>
      match wsTokens (pyStrip p.2) with
      | [] => none
      | w :: _ => (normalize_day w).map (fun d => (p.1, d)))

/-- A raw meeting block: the intermediate dict of `_parse_weekly_grid` /
`_parse_scroll_area`. -/
structure RawRec where
  SUBJECT : Str
  CATALOG_NBR : Str
  CLASS_SECTION : Str
  CLASS_CODE_RAW : Str
  CLASS_NBR : Str
  DESCR : Str
  INSTRUCTORS : Str
  FDESCR : Str
  DAY : Str
  TIME_RANGE : Str
  TIME_START : Str
  TIME_END : Str
deriving DecidableEq, Repr

/-- `[l.strip() for l in text.split("\n") if l.strip()]`. -/
def processLines (rawLines : List Str) : List Str :=
  (rawLines.map pyStrip).filter (fun l => l ≠ [])

def joinSpace : List Str → Str
  | [] => []
  | [x] => x
  | x :: xs => x ++ ' ' :: joinSpace xs

/-- One colored `<td>` block of `_parse_weekly_grid` (`none` = the source's
`continue`). -/
def weeklyBlockRec (t : STable) (dayCols : List (Nat × Str)) (rIdx cIdx : Nat)
    (cell : SCell) : Option RawRec :=
  if ¬ cell.hasBg then none
  else
    match cell.spanLines with
    | none => none
    | some raw =>
      let lines := processLines raw
      if lines.length < 3 then none
      else
        let courseLine := lines.headD []
        let classType := (lines.get? 1).getD []
        let tl := (lines.drop 1).foldl
          (fun (acc : Str × List Str) line =>
            if (parse_time_range_schedule line).isSome then (line, acc.2)
            else if line ≠ classType then (acc.1, acc.2 ++ [line]) else acc)
          ([], [])
        let timeLine := if tl.1 = [] then (lines.get? 2).getD [] else tl.1
        match parse_time_range_schedule timeLine with
        | none => none
        | some ts =>
          let sc :=
            match matchCourseLine (pyStrip courseLine) with
            | some m => (m.1, m.2.1, pyStrip (rstripChar '-' (pyStrip m.2.2)))
            | none => split_class_code_schedule (courseLine.filter (fun c => c ≠ ' '))
          let location0 := if tl.2 = [] then [] else joinSpace tl.2
          let location :=
            if location0 = [] ∧ lines.length > 3 then (lines.get? 3).getD []
            else location0
          match determine_day_for_cell t dayCols rIdx cIdx with
          | none => none
          | some dayName =>
            some { SUBJECT := sc.1, CATALOG_NBR := sc.2.1,
                   CLASS_SECTION := if sc.2.2 ≠ [] ∧ sc.2.2 ≠ ['-'] then sc.2.2 else [],
                   CLASS_CODE_RAW := sc.1 ++ sc.2.1, CLASS_NBR := [],
                   DESCR := classType, INSTRUCTORS := [], FDESCR := location,
                   DAY := dayName, TIME_RANGE := timeLine,
                   TIME_START := ts.1, TIME_END := ts.2 }

/-- `_parse_weekly_grid`: walk every `<td>` of the table in document order. -/
def parse_weekly_grid (t? : Option STable) : List RawRec :=
  match t? with
  | none => []
  | some t =>
    let dayCols := dayColumnsOf t
    if dayCols = [] then []
    else
      t.enum.flatMap (fun rp =>
        rp.2.tds.enum.filterMap (fun cp => weeklyBlockRec t dayCols rp.1 cp.1 cp.2))

/-!  ### Scroll-area fallback and auxiliary tables -/

/-- A PeopleSoft page element: id attribute, css class, text. -/
structure El where
  eid : Str
  cls : Str := []
  etext : Str := []
deriving Repr

/-- `re.search("CLASSNAME|CLS_LINK|CLASS_NAME", id, re.I)`. -/
def idPatCourse (id : Str) : Bool :=
  hasSubCI id "classname".data || hasSubCI id "cls_link".data ||
    hasSubCI id "class_name".data

/-- `re.search(r"\$(\d+)$", id)`: the trailing digit run after a `$`. -/
def idxSuffix? (id : Str) : Option Str :=
  let rev := id.reverse
  let d := countLeading isDigitC rev
  if 1 ≤ d ∧ rev.get? d = some '$' then some ((rev.take d).reverse) else none

/-- `_find_field`: first element whose id matches
`(?:pat1|pat2|…).*\$idx$` case-insensitively — it ends with `$idx` and some
alternative occurs in the part before that suffix. -/
def fieldFind (els : List El) (pats : List Str) (idx : Str) : Str :=
  match els.find? (fun el =>
      let n := idx.length + 1
      decide (el.eid.length ≥ n ∧ el.eid.drop (el.eid.length - n) = '$' :: idx) &&
        pats.any (fun p => hasSubCI (el.eid.take (el.eid.length - n)) p)) with
  | some el => pyStrip el.etext
  | none => []

/-- `re.split(r"\s*[-–]\s*", s, maxsplit=1)`: the separator starts at the
first position whose first non-space character is a dash. -/
def dashSepHere (s : Str) : Bool :=
  match skipWs s with
  | d :: _ => d = '-' || d = '–'
  | [] => false

def afterDashSep (s : Str) : Str :=
  match skipWs s with
  | _ :: r => skipWs r
  | [] => []

def splitDashFirst : Str → Str × Option Str
  | [] => ([], none)
  | c :: t =>
    if dashSepHere (c :: t) then ([], some (afterDashSep (c :: t)))
    else
      let q := splitDashFirst t
      (c :: q.1, q.2)

/-- `_parse_scroll_area`. -/
def parse_scroll_area (els : List El) : List RawRec :=
  (els.filter (fun el => idPatCourse el.eid)).flatMap (fun el =>
    match idxSuffix? el.eid with
    | none => []
    | some idx =>
      let courseText := pyStrip el.etext
      if courseText = [] then []
      else
        let timeStr := fieldFind els ["class_time".data, "mtg_time".data,
          "meeting_time".data] idx
        let dayStr := fieldFind els ["mtg_pat".data, "class_day".data,
          "day_of_week".data, "meeting_day".data] idx
        let roomStr := fieldFind els ["room".data, "facility".data,
          "location".data, "bldg".data] idx
        let instrStr := fieldFind els ["instr".data, "instructor".data,
          "teacher".data] idx
        let parts := splitDashFirst courseText
        let codePart := pyStrip parts.1
        let title := match parts.2 with
          | some t2 => pyStrip t2
          | none => []
        let codeClean := codePart.filter (fun c => c ≠ ' ')
        let sc := split_class_code_schedule codeClean
        let days := parse_day_pattern dayStr
        let times := if timeStr ≠ [] then parse_time_range_schedule timeStr else none
        match times with
        | none => []
        | some ts =>
          days.map (fun d =>
            { SUBJECT := sc.1, CATALOG_NBR := sc.2.1, CLASS_SECTION := sc.2.2,
              CLASS_CODE_RAW := codeClean, CLASS_NBR := [],
              DESCR := title, INSTRUCTORS := instrStr, FDESCR := roomStr,
              DAY := d, TIME_RANGE := timeStr,
              TIME_START := ts.1, TIME_END := ts.2 }))

/-- `_parse_cusis_date`: `^(\d{4})/(\d{1,2})/(\d{1,2})$` on the stripped
text. -/
def parse_cusis_date (text : Str) : Option Date :=
  let t := pyStrip text
  match splitChar '/' t with
  | [a, b, c] =>
    if validPart4 a ∧ validPart12 b ∧ validPart12 c then
      mkDate? (natDec a) (natDec b) (natDec c)
    else none
  | _ => none

/-- `re.search(tok + r"\d+", id, re.I)` for the `STDNT_WK_NO_MTG_*_DT$` id
patterns (`tok` given lowercase, ending in the literal `$`). -/
def hasIdTok (id tok : Str) : Bool :=
  let l := lowerS id
  (List.range (l.length + 1)).any (fun i =>
    tok.isPrefixOf (l.drop i) &&
      (match (l.drop i).drop tok.length with
       | c :: _ => isDigitC c
       | [] => false))

/-- `_parse_no_meeting_table`: min of the start dates, max of the end
dates. -/
def parse_no_meeting_table (els : List El) : Option Date × Option Date :=
  let starts := els.filterMap (fun el =>
    if hasIdTok el.eid "stdnt_wk_no_mtg_start_dt$".data then
      parse_cusis_date (pyStrip el.etext)
    else none)
  let ends := els.filterMap (fun el =>
    if hasIdTok el.eid "stdnt_wk_no_mtg_end_dt$".data then
      parse_cusis_date (pyStrip el.etext)
    else none)
  (match starts with
   | [] => none
   | d :: ds => some (ds.foldl Nat.min d),
   match ends with
   | [] => none
   | d :: ds => some (ds.foldl Nat.max d))

/-!  ### `parse_schedule_html` -/

/-- An in-memory weekly-schedule page: the `WEEKLY_SCHED_HTMLAREA` table (if
present) and the page's id/class-bearing elements. -/
structure SSoup where
  weekly : Option STable := none
  els : List El := []
deriving Repr

/-- The schedule extractor's `seen` de-duplication key:
`(class code raw, day name, time start, time end)`. -/
abbrev SKey := Str × Str × Str × Str

/-- One iteration of `parse_schedule_html`'s final record loop; state =
(`seen`, `final_records` paired with admission keys). -/
def schedRecStep (termStart endD : Date)
    (st : List SKey × List (SKey × MRec)) (raw : RawRec) :
    List SKey × List (SKey × MRec) :=
  let proceed : Option (Str × Str × Str) :=
    if raw.DAY = [] ∨ raw.TIME_START = [] ∨ raw.TIME_END = [] then
      match (if raw.TIME_RANGE ≠ [] then parse_time_range_schedule raw.TIME_RANGE
             else none) with
      | none => none
      | some ts =>
        match (if raw.DAY ≠ [] then parse_day_pattern raw.DAY else []) with
        | [] => none
        | d :: _ => some (d, ts.1, ts.2)
    else some (raw.DAY, raw.TIME_START, raw.TIME_END)
  match proceed with
  | none => st
  | some dte =>
    let key : SKey := (raw.CLASS_CODE_RAW, dte.1, dte.2.1, dte.2.2)
    if key ∈ st.1 then st
    else
      let rec0 : MRec := {
        SUBJECT := raw.SUBJECT, CATALOG_NBR := raw.CATALOG_NBR,
        CLASS_SECTION := raw.CLASS_SECTION, CLASS_CODE_RAW := raw.CLASS_CODE_RAW,
        CLASS_NBR := raw.CLASS_NBR, DESCR := raw.DESCR,
        INSTRUCTORS := raw.INSTRUCTORS, FDESCR := raw.FDESCR,
        COMDESC := raw.SUBJECT,
        START_DT := first_date_for_weekday termStart dte.1,
        END_DT := endD,
        MEETING_TIME_START := dte.2.1, MEETING_TIME_END := dte.2.2 }
      (key :: st.1, st.2 ++ [(key, rec0)])

/-- `parse_schedule_html` with admission keys.  The iframe resolution is the
caller's file-system step (we receive the resolved soup); the week-label
parse in the term-date fallback is embedded by its effect — its values are
discarded by the source, which then applies the month heuristic. -/
def parse_schedule_html_keyed (soup : SSoup) (startDate endDate : Option Date)
    (todayY todayM : Nat) : Except String (List (SKey × MRec)) :=
  let raw1 := parse_weekly_grid soup.weekly
  let raws := if raw1 = [] then parse_scroll_area soup.els else raw1
  if raws = [] then
    .error "Could not extract any course data from the HTML."
  else
    let se1 : Option Date × Option Date :=
      if startDate.isNone ∨ endDate.isNone then
        let nm := parse_no_meeting_table soup.els
        (startDate <|> nm.1, endDate <|> nm.2)
      else (startDate, endDate)
    let se2 : Option Date × Option Date :=
      if se1.1.isNone ∨ se1.2.isNone then
        if se1.1.isNone ∧ se1.2.isNone then
          if 8 ≤ todayM then
            (some (rataDie todayY 9 2), some (rataDie todayY 12 5))
          else
            (some (rataDie todayY 1 13), some (rataDie todayY 5 10))
        else se1
      else se1
    finishIfDates se2 (fun ts te => (raws.foldl (schedRecStep ts te) ([], [])).2)
      "Found course elements in HTML but could not extract valid day/time information."
      "Could not determine term start/end dates."

/-- `parse_schedule_html` proper: the record list. -/
def parse_schedule_html (soup : SSoup) (startDate endDate : Option Date)
    (todayY todayM : Nat) : Except String (List MRec) :=
  (parse_schedule_html_keyed soup startDate endDate todayY todayM).map
    (List.map (·.2))

/-!  ## Specification-side definitions

Definitions below are not embeddings of source code: they render canonical
inputs for the universally-quantified theorems, or state, in the claims' own
words, the behaviour a claim asserts (to be compared against the embedded
code). -/

/-- Decimal digits of an hour written without padding (1 digit under 10,
2 digits up to 99) — the `H` of the claims' `H:MM` shape. -/
def hourChars (h : Nat) : Str :=
  if h < 10 then [Nat.digitChar h] else [Nat.digitChar (h / 10), Nat.digitChar (h % 10)]

def markerChars : Option Meridiem → Str
  | none => []
  | some .AM => ['A', 'M']
  | some .PM => ['P', 'M']

/-- A canonical `H:MM[AM|PM]` time text. -/
def renderTime (h m : Nat) (ap : Option Meridiem) : Str :=
  hourChars h ++ ':' :: pad2 m ++ markerChars ap

/-- A canonical `H:MM[AP] sep H:MM[AP]` range text with one space around the
separator. -/
def renderRange (sep : Char) (h1 m1 : Nat) (ap1 : Option Meridiem)
    (h2 m2 : Nat) (ap2 : Option Meridiem) : Str :=
  renderTime h1 m1 ap1 ++ ' ' :: sep :: ' ' :: renderTime h2 m2 ap2

/-- The 24-hour conversion rules exactly as the claim states them: hour 12
with AM becomes 0, hour 12 with PM stays 12, hour 1–11 with PM gains 12, an
hour without a marker is kept. -/
def spec_hour_24 (h : Nat) (ap : Option Meridiem) : Nat :=
  match ap with
  | some .AM => if h = 12 then 0 else h
  | some .PM => if h = 12 then 12 else h + 12
  | none => h

/-- Minutes-of-day of an `HH:MM` string (0 on other shapes), to read two
formatted times as clock times of one day. -/
def clockVal (s : Str) : Nat :=
  match splitChar ':' s with
  | [a, b] => natDec a * 60 + natDec b
  | _ => 0

/-- Every time text in this input parses ordered (teaching module's parser). -/
def timeOrdT (txt : Str) : Bool :=
  match parse_time_range_teaching txt with
  | some p => decide (clockVal p.1 < clockVal p.2)
  | none => true

/-- Every time text in this input parses ordered (schedule module's parser). -/
def timeOrdS (txt : Str) : Bool :=
  match parse_time_range_schedule txt with
  | some p => decide (clockVal p.1 < clockVal p.2)
  | none => true

/-- All td texts a teaching soup can feed to `_parse_time_range`. -/
def teachTexts (soup : List TTable) : List Str :=
  soup.flatMap (fun tbl => tbl.rows.flatMap tdTexts)

/-- All texts a schedule soup can feed to `_parse_time_range`: the processed
span lines of the weekly grid and the stripped element texts. -/
def schedTexts (soup : SSoup) : List Str :=
  (match soup.weekly with
   | none => []
   | some t =>
     t.flatMap (fun r => r.tds.flatMap (fun c =>
       match c.spanLines with
       | none => []
       | some raw => processLines raw)))
  ++ soup.els.map (fun el => pyStrip el.etext)

/-- The de-duplication tuple claimed by the specification:
`(class_code_raw, class_number, day-or-date, meeting_time_start)`. -/
def claimC2TupleOf (r : MRec) : Str × Str × Date × Str :=
  (r.CLASS_CODE_RAW, r.CLASS_NBR, r.START_DT, r.MEETING_TIME_START)

/-- The splitter behaviour exactly as the claim states it: subject 2–6
uppercase letters, catalog 3–4 digits, section the remainder stripped of
whitespace and trailing hyphens; else subject and section empty, catalog the
trimmed input. -/
def spec_split_claim (code : Str) : Str × Str × Str :=
  let s := pyStrip code
  let L := countLeading isUpperC s
  let rest := s.drop L
  let D := countLeading isDigitC rest
  if 2 ≤ L ∧ L ≤ 6 ∧ 3 ≤ D then
    let k := if 4 ≤ D then 4 else 3
    (s.take L, rest.take k, pyStrip (rstripChar '-' (pyStrip (rest.drop k))))
  else ([], s, [])

/-- A fully-qualified `d/m/yyyy` token's year. -/
def fullTokenYear? (p : Str) : Option Nat :=
  match splitChar '/' (pyStrip p) with
  | [x, y, z] =>
    if validPart12 x ∧ validPart12 y ∧ validPart4 z then some (natDec z) else none
  | _ => none

/-- The year of the first fully-qualified token appearing anywhere in a cell
(range sides or comma list) — the claim's hint source. -/
def cellFullYear? (txt : Str) : Option Nat :=
  let t := pyStrip txt
  match splitFirstSub " - ".data t with
  | some (a, b) => [a, b].findSome? fullTokenYear?
  | none => (splitChar ',' t).findSome? fullTokenYear?

/-- Term inference exactly as the claim states it: the year hint comes from
any fully-qualified token seen anywhere in the column, today's year only when
none exists; the span is (min, max) of all parsed dates. -/
def spec_infer_claim (t : TTable) (headerKeys : List Str) (todayYear : Nat) :
    Option Date × Option Date :=
  match headerKeys.findIdx? (fun k => hasSub k "meeting".data && hasSub k "date".data) with
  | none => (none, none)
  | some idx =>
    let cellTexts := meetingCellTexts t idx
    let yearHint := (cellTexts.findSome? cellFullYear?).getD todayYear
    match cellTexts.flatMap
        (fun txt => parse_meeting_dates_cell txt (some yearHint) todayYear) with
    | [] => (none, none)
    | d :: ds => (some (ds.foldl Nat.min d), some (ds.foldl Nat.max d))

/-!  ## Supporting lemmas -/

theorem teachCarry_seen (st : TState) (v : RowVals) :
    (teachCarry st v).seen = st.seen := by
  unfold teachCarry
  repeat' split
  all_goals rfl

theorem teachCarry_recsK (st : TState) (v : RowVals) :
    (teachCarry st v).recsK = st.recsK := by
  unfold teachCarry
  repeat' split
  all_goals rfl

theorem finishNonempty_ok {l l2 : List α} {msg : String}
    (h : finishNonempty l msg = .ok l2) : l2 = l ∧ l ≠ [] := by
  unfold finishNonempty at h
  split at h
  · cases h
  · rename_i hne
    cases h
    exact ⟨rfl, by simpa using hne⟩

theorem finishIfDates_ne_ok_nil (se : Option Date × Option Date)
    (build : Date → Date → List α) (m1 m2 : String) :
    finishIfDates se build m1 m2 ≠ .ok [] := by
  obtain ⟨a, b⟩ := se
  cases a <;> cases b <;> intro h <;> simp only [finishIfDates] at h
  · cases h
  · cases h
  · cases h
  · exact absurd (finishNonempty_ok h).1.symm (finishNonempty_ok h).2

theorem teach_keyed_ne_ok_nil (soup : List TTable) (sD eD : Option Date)
    (hint : Str) (sel : List Str) (ty : Nat) :
    parse_teaching_html_keyed soup sD eD hint sel ty ≠ .ok [] := by
  intro h
  simp only [parse_teaching_html_keyed] at h
  repeat' split at h
  all_goals first
  | cases h
  | exact absurd h (finishIfDates_ne_ok_nil _ _ _ _)

theorem sched_keyed_ne_ok_nil (soup : SSoup) (sD eD : Option Date)
    (tY tM : Nat) :
    parse_schedule_html_keyed soup sD eD tY tM ≠ .ok [] := by
  intro h
  simp only [parse_schedule_html_keyed] at h
  repeat' split at h
  all_goals first
  | cases h
  | exact absurd h (finishIfDates_ne_ok_nil _ _ _ _)

theorem teachRowStep_recsK_of_skip (hk : List Str) (ts te : Date) (hint : Str)
    (sel : List Str) (st : TState) (row : TRow)
    (h : tdTexts row = [] ∨ (tdTexts row).length ≠ hk.length ∨
      (if (rowValsOf hk (tdTexts row)).day ≠ [] then
        normalize_day (rowValsOf hk (tdTexts row)).day else none) = none ∨
      (if (rowValsOf hk (tdTexts row)).timeRange ≠ [] then
        parse_time_range_teaching (rowValsOf hk (tdTexts row)).timeRange else none) = none) :
    (teachRowStep hk ts te hint sel st row).recsK = st.recsK := by
  unfold teachRowStep
  by_cases hc : tdTexts row = [] ∨ (tdTexts row).length ≠ hk.length
  · rw [if_pos hc]
  · rw [if_neg hc]
    rcases h with h | h | h | h
    · exact absurd (Or.inl h) hc
    · exact absurd (Or.inr h) hc
    · dsimp only
      rw [h]
      exact teachCarry_recsK st _
    · dsimp only
      rw [h]
      split
      all_goals first
      | exact teachCarry_recsK st _
      | simp_all

theorem timeFold_fst (ls : List Str) (ct : Str) (acc : Str × List Str)
    (h : ∀ l ∈ ls, parse_time_range_schedule l = none) :
    (ls.foldl (fun (acc : Str × List Str) line =>
      if (parse_time_range_schedule line).isSome then (line, acc.2)
      else if line ≠ ct then (acc.1, acc.2 ++ [line]) else acc) acc).1 = acc.1 := by
  induction ls generalizing acc with
  | nil => rfl
  | cons hd tl ih =>
    have hhd : parse_time_range_schedule hd = none := h hd (by simp)
    simp only [List.foldl_cons, hhd, Option.isSome_none, Bool.false_eq_true, if_false]
    split
    · exact ih _ (fun l hl => h l (by simp [hl]))
    · exact ih _ (fun l hl => h l (by simp [hl]))

theorem weeklyBlockRec_none_of_no_time (t : STable) (dayCols : List (Nat × Str))
    (r i : Nat) (cell : SCell) (raw : List Str)
    (hs : cell.spanLines = some raw)
    (h : ∀ l ∈ processLines raw, parse_time_range_schedule l = none) :
    weeklyBlockRec t dayCols r i cell = none := by
  unfold weeklyBlockRec
  by_cases hbg : cell.hasBg = true
  · rw [if_neg (by simp [hbg])]
    rw [hs]
    dsimp only
    by_cases hlen : (processLines raw).length < 3
    · rw [if_pos hlen]
    · rw [if_neg hlen]
      rw [timeFold_fst _ _ _ (fun l hl => h l (List.mem_of_mem_drop hl))]
      rw [if_pos rfl]
      have hlt : 2 < (processLines raw).length := by omega
      rw [List.get?_eq_get hlt]
      have hxm : (processLines raw).get ⟨2, hlt⟩ ∈ processLines raw :=
        List.get_mem _ _ _
      simp only [Option.getD_some]
      rw [h _ hxm]
  · rw [if_pos (by simpa using hbg)]

theorem parse_teaching_html_ne_ok_nil (soup : List TTable) (sD eD : Option Date)
    (hint : Str) (sel : List Str) (ty : Nat) :
    parse_teaching_html soup sD eD hint sel ty ≠ .ok [] := by
  intro h
  unfold parse_teaching_html at h
  cases hk : parse_teaching_html_keyed soup sD eD hint sel ty with
  | error e => rw [hk] at h; cases h
  | ok l =>
    rw [hk] at h
    simp only [Except.map] at h
    injection h with h
    exact teach_keyed_ne_ok_nil soup sD eD hint sel ty
      (by rw [hk, List.map_eq_nil_iff.mp h])

theorem parse_schedule_html_ne_ok_nil (soup : SSoup) (sD eD : Option Date)
    (tY tM : Nat) :
    parse_schedule_html soup sD eD tY tM ≠ .ok [] := by
  intro h
  unfold parse_schedule_html at h
  cases hk : parse_schedule_html_keyed soup sD eD tY tM with
  | error e => rw [hk] at h; cases h
  | ok l =>
    rw [hk] at h
    simp only [Except.map] at h
    injection h with h
    exact sched_keyed_ne_ok_nil soup sD eD tY tM
      (by rw [hk, List.map_eq_nil_iff.mp h])

/-- C7: neither extractor ever returns an empty record list: when zero valid
records result the call raises a descriptive error, while an individual
malformed row (teaching: wrong cell count, or day/time that do not parse)
or block (schedule: none of its lines parses as a time range) is silently
skipped — it contributes no record and no error. -/
theorem c7_no_empty_success_and_row_tolerance :
    (∀ soup sD eD hint sel ty,
      parse_teaching_html soup sD eD hint sel ty ≠ .ok []) ∧
    (∀ soup sD eD tY tM, parse_schedule_html soup sD eD tY tM ≠ .ok []) ∧
    (∀ hk ts te hint sel st row,
      (tdTexts row = [] ∨ (tdTexts row).length ≠ hk.length ∨
        (if (rowValsOf hk (tdTexts row)).day ≠ [] then
          normalize_day (rowValsOf hk (tdTexts row)).day else none) = none ∨
        (if (rowValsOf hk (tdTexts row)).timeRange ≠ [] then
          parse_time_range_teaching (rowValsOf hk (tdTexts row)).timeRange
          else none) = none) →
      (teachRowStep hk ts te hint sel st row).recsK = st.recsK) ∧
    (∀ t dayCols r i cell raw, cell.spanLines = some raw →
      (∀ l ∈ processLines raw, parse_time_range_schedule l = none) →
      weeklyBlockRec t dayCols r i cell = none) :=
  ⟨parse_teaching_html_ne_ok_nil, parse_schedule_html_ne_ok_nil,
   teachRowStep_recsK_of_skip, weeklyBlockRec_none_of_no_time⟩

/-- Witness for C7's hypothesis-bearing conjuncts: a row whose time text is
garbage is skipped, and a colored block with an unparsable time line yields
no record. -/
theorem c7_witness :
    (teachRowStep ["day".data, "time".data] 1 2 [] []
      { } [(false, "Mon".data), (false, "soon".data)]).recsK = [] ∧
    weeklyBlockRec [] [] 1 0
      { hasBg := true, rowspan := 2,
        spanLines := some ["ROSE 5770".data, "Lecture".data, "no time".data] }
      = none := by
  constructor
  · exact c7_no_empty_success_and_row_tolerance.2.2.1 _ _ _ _ _ _ _
      (by decide)
  · exact c7_no_empty_success_and_row_tolerance.2.2.2 _ _ _ _ _ _ rfl
      (by decide)

theorem find?_append_some {p : α → Bool} {l1 : List α} {a : α} (l2 : List α)
    (h : l1.find? p = some a) : (l1 ++ l2).find? p = some a := by
  induction l1 with
  | nil => cases h
  | cons hd tl ih =>
    rw [List.cons_append]
    rw [List.find?_cons] at h ⊢
    split at h
    · exact h
    · exact ih h

theorem teachRowStep_of_mismatch (hk : List Str) (ts te : Date) (hint : Str)
    (sel : List Str) (st : TState) (row : TRow)
    (h : tdTexts row = [] ∨ (tdTexts row).length ≠ hk.length) :
    teachRowStep hk ts te hint sel st row = st := by
  unfold teachRowStep
  rw [if_pos h]

theorem tableScore_congr {t1 t2 : TTable} (h : headerTexts t1 = headerTexts t2) :
    tableScore t1 = tableScore t2 := by
  unfold tableScore
  rw [h]

theorem guess_singleton (t : TTable) :
    guess_timetable_table [t] =
      if t.gvDetail then some t
      else (match tableScore t with
            | none => none
            | some _ => some t) := by
  unfold guess_timetable_table
  cases hgv : t.gvDetail <;> cases hsc : tableScore t <;>
    simp [List.find?_cons, hgv, List.filterMap, hsc]

/-- C10: a teaching-timetable row whose td-cell count differs from the header
cell count is silently skipped: the whole extraction behaves as if the row
were absent — no record, no error, no current-identity update affecting later
rows.  (Term dates are given, so the inference pass, which scans the Meeting
Date column of every sufficiently long row, does not run.) -/
theorem c10_mismatched_row_skipped (gv : Bool) (pre post : List TRow) (r hrow : TRow)
    (sD eD : Date) (hint : Str) (sel : List Str) (ty : Nat)
    (hhdr : pre.find? (fun row => !row.isEmpty) = some hrow)
    (hmis : (tdTexts r).length ≠ hrow.length) :
    parse_teaching_html [⟨gv, pre ++ r :: post⟩] (some sD) (some eD) hint sel ty
      = parse_teaching_html [⟨gv, pre ++ post⟩] (some sD) (some eD) hint sel ty := by
  have hH1 : headerTexts ⟨gv, pre ++ r :: post⟩
      = some (hrow.map (fun c => pyStrip c.2)) := by
    unfold headerTexts
    rw [find?_append_some _ hhdr]
    rfl
  have hH2 : headerTexts ⟨gv, pre ++ post⟩
      = some (hrow.map (fun c => pyStrip c.2)) := by
    unfold headerTexts
    rw [find?_append_some _ hhdr]
    rfl
  have hfold : ∀ (ts te : Date) (selS : List Str) (z : TState),
      (pre ++ r :: post).foldl
        (teachRowStep ((hrow.map (fun c => pyStrip c.2)).map lowerS) ts te hint selS) z
      = (pre ++ post).foldl
        (teachRowStep ((hrow.map (fun c => pyStrip c.2)).map lowerS) ts te hint selS) z := by
    intro ts te selS z
    rw [List.foldl_append, List.foldl_append, List.foldl_cons]
    rw [teachRowStep_of_mismatch _ _ _ _ _ _ _ (Or.inr (by simpa using hmis))]
  unfold parse_teaching_html
  congr 1
  unfold parse_teaching_html_keyed
  rw [guess_singleton, guess_singleton,
    @tableScore_congr ⟨gv, pre ++ r :: post⟩ ⟨gv, pre ++ post⟩
      (hH1.trans hH2.symm)]
  cases gv with
  | true =>
    simp only [if_pos]
    rw [hH1, hH2]
    simp only [Option.isNone_some, Bool.false_eq_true, or_self, if_false]
    unfold finishIfDates
    dsimp only
    congr 1
    exact congrArg TState.recsK (hfold _ _ _ _)
  | false =>
    simp only [Bool.false_eq_true, if_false]
    cases hsc : tableScore (⟨false, pre ++ post⟩ : TTable) with
    | none => rfl
    | some sc =>
      dsimp only
      rw [hH1, hH2]
      simp only [Option.isNone_some, Bool.false_eq_true, or_self, if_false]
      unfold finishIfDates
      dsimp only
      congr 1
      exact congrArg TState.recsK (hfold _ _ _ _)

/-- Witness for C10 at a concrete table: a 2-cell row under a 3-cell header
is skipped even though it carries a class code and a valid day/time. -/
theorem c10_witness :
    parse_teaching_html
      [⟨true, [[(true, "Day".data), (true, "Time".data), (true, "Class Code".data)],
               [(false, "Mon".data), (false, "9:30 - 10:15".data)],
               [(false, "Tue".data), (false, "10:30 - 11:15".data), (false, "ROSE5720-".data)]]⟩]
      (some 739621) (some 739700) [] [] 2026
    = parse_teaching_html
      [⟨true, [[(true, "Day".data), (true, "Time".data), (true, "Class Code".data)],
               [(false, "Tue".data), (false, "10:30 - 11:15".data), (false, "ROSE5720-".data)]]⟩]
      (some 739621) (some 739700) [] [] 2026 :=
  c10_mismatched_row_skipped true
    [[(true, "Day".data), (true, "Time".data), (true, "Class Code".data)]]
    [[(false, "Tue".data), (false, "10:30 - 11:15".data), (false, "ROSE5720-".data)]]
    [(false, "Mon".data), (false, "9:30 - 10:15".data)]
    [(true, "Day".data), (true, "Time".data), (true, "Class Code".data)]
    739621 739700 [] [] 2026 (by decide) (by decide)

theorem findInRow_snd (cells : List SCell) :
    ∀ (res : Res) (col tIdx : Nat),
      (findInRow cells res col tIdx).2 = (rowColsAssign cells res col).2.get? tIdx := by
  induction cells with
  | nil => intro res col tIdx; rfl
  | cons cell rest ih =>
    intro res col tIdx
    cases tIdx with
    | zero => rfl
    | succ tIdx2 =>
      simp only [findInRow, rowColsAssign]
      rw [ih]
      rfl

theorem detColGo_eq (rows : List SRow) :
    ∀ (res : Res) (rRel i : Nat),
      detColGo res rows rRel i
        = ((walkRows res rows).get? rRel).bind (fun p => p.2.get? i) := by
  induction rows with
  | nil => intro res rRel i; cases rRel <;> rfl
  | cons row rs ih =>
    intro res rRel i
    cases rRel with
    | zero =>
      simp only [detColGo, walkRows, List.get?_cons_zero, Option.bind_some]
      exact findInRow_snd row.tds res 0 i
    | succ rRel2 =>
      simp only [detColGo, walkRows, List.get?_cons_succ]
      exact ih _ rRel2 i

/-- A per-row tiling statement: the row's assigned columns together with the
columns reserved at its start form a consecutive initial block `0..n-1`. -/
def rowTiles (p : Res × List Nat) : Prop :=
  ∃ n, ∀ c, (c ∈ p.2 ∨ 0 < resLookup p.1 c) ↔ c < n

/-- The table-wide tiling hypothesis of the claim: every data row's td cells,
together with the columns still reserved by rowspans from earlier rows, tile
consecutive column positions. -/
def tableTiles (t : STable) : Prop :=
  ∀ p ∈ walkRows [] (t.drop 1), rowTiles p

/-- C1: on a table whose rows tile consecutive columns, the grid position
resolver returns, for every td cell, exactly the column the replay algorithm
(`walkRows`/`gridCols`: walking data rows top to bottom, skipping reserved
columns while decrementing their remaining counts, assigning each cell the
next free column and reserving it for rowspan-1 further rows) assigns to it,
and `_determine_day_for_cell` is that column sent through the header day
map. -/
theorem c1_resolver_matches_replay (t : STable) (dayCols : List (Nat × Str))
    (_htile : tableTiles t) :
    ∀ r i,
      determine_col_index_for_cell t (r + 1) i
        = ((gridCols t).get? r).bind (fun cols => cols.get? i)
      ∧ determine_day_for_cell t dayCols (r + 1) i
        = (((gridCols t).get? r).bind (fun cols => cols.get? i)).bind
            (fun col => (dayCols.find? (fun q => q.1 = col)).map (·.2)) := by
  intro r i
  have hcol : determine_col_index_for_cell t (r + 1) i
      = ((gridCols t).get? r).bind (fun cols => cols.get? i) := by
    show detColGo [] (t.drop 1) r i
      = (((walkRows [] (t.drop 1)).map (·.2)).get? r).bind (fun cols => cols.get? i)
    rw [detColGo_eq]
    rw [List.get?_map]
    cases (walkRows [] (t.drop 1)).get? r <;> rfl
  refine ⟨hcol, ?_⟩
  unfold determine_day_for_cell
  rw [hcol]
  cases ((gridCols t).get? r).bind (fun cols => cols.get? i) <;> rfl

/-- Witness for C1: a three-row table (header + two data rows) where a
rowspan-2 cell in the first data row shortens the second; the tiling
hypothesis holds and the resolver returns the replayed columns. -/
theorem c1_witness :
    tableTiles
      [⟨["Time".data, "Monday".data, "Tuesday".data], []⟩,
       ⟨[], [⟨false, 2, none⟩, ⟨true, 1, none⟩, ⟨true, 1, none⟩]⟩,
       ⟨[], [⟨true, 1, none⟩, ⟨true, 1, none⟩]⟩]
    ∧ determine_col_index_for_cell
      [⟨["Time".data, "Monday".data, "Tuesday".data], []⟩,
       ⟨[], [⟨false, 2, none⟩, ⟨true, 1, none⟩, ⟨true, 1, none⟩]⟩,
       ⟨[], [⟨true, 1, none⟩, ⟨true, 1, none⟩]⟩] 2 0
      = ((gridCols
      [⟨["Time".data, "Monday".data, "Tuesday".data], []⟩,
       ⟨[], [⟨false, 2, none⟩, ⟨true, 1, none⟩, ⟨true, 1, none⟩]⟩,
       ⟨[], [⟨true, 1, none⟩, ⟨true, 1, none⟩]⟩]).get? 1).bind
        (fun cols => cols.get? 0) := by
  have htile : tableTiles
      [⟨["Time".data, "Monday".data, "Tuesday".data], []⟩,
       ⟨[], [⟨false, 2, none⟩, ⟨true, 1, none⟩, ⟨true, 1, none⟩]⟩,
       ⟨[], [⟨true, 1, none⟩, ⟨true, 1, none⟩]⟩] := by
    intro p hp
    have hw : walkRows []
        (([⟨["Time".data, "Monday".data, "Tuesday".data], []⟩,
          ⟨[], [⟨false, 2, none⟩, ⟨true, 1, none⟩, ⟨true, 1, none⟩]⟩,
          ⟨[], [⟨true, 1, none⟩, ⟨true, 1, none⟩]⟩] : STable).drop 1)
        = [([], [0, 1, 2]), ([(0, 1)], [1, 2])] := by decide
    rw [hw] at hp
    simp only [List.mem_cons, List.not_mem_nil, or_false] at hp
    rcases hp with hp | hp
    · subst hp
      refine ⟨3, fun c => ?_⟩
      constructor
      · intro h
        rcases h with h | h
        · simp at h; omega
        · simp [resLookup] at h
      · intro h
        left
        simp
        omega
    · subst hp
      refine ⟨3, fun c => ?_⟩
      constructor
      · intro h
        rcases h with h | h
        · simp at h; omega
        · by_cases hc : c = 0
          · omega
          · have h0 : (0 : Nat) ≠ c := fun he => hc he.symm
            simp [resLookup, List.find?, h0] at h
      · intro h
        by_cases hc : c = 0
        · right
          subst hc
          simp [resLookup, List.find?]
        · left
          simp
          omega
  exact ⟨htile, (c1_resolver_matches_replay _ [] htile 1 0).1⟩

theorem digitVal?_digitChar : ∀ d : Nat, d < 10 → digitVal? (Nat.digitChar d) = some d := by
  decide

theorem digitVal?_colon : digitVal? ':' = none := by decide

theorem isSpc_digitChar : ∀ d : Nat, d < 10 → isSpc (Nat.digitChar d) = false := by
  decide

theorem skipWs_cons_not {c : Char} (t : Str) (h : isSpc c = false) :
    skipWs (c :: t) = c :: t := by
  simp [skipWs, h]

theorem digitVal?_zero : digitVal? '0' = some 0 := by decide

theorem readHM_render (h m : Nat) (hh : h ≤ 99) (hm : m ≤ 99) (X : Str) :
    readHM (hourChars h ++ ':' :: pad2 m ++ X) = some (h, m, X) := by
  have hd10 : h % 10 < 10 := Nat.mod_lt _ (by omega)
  have hdiv : h / 10 < 10 := by omega
  have hm10 : m % 10 < 10 := Nat.mod_lt _ (by omega)
  have hmdiv : m / 10 < 10 := by omega
  have e1 : 10 * (m / 10) + m % 10 = m := by omega
  have e2 : 10 * (h / 10) + h % 10 = h := by omega
  by_cases h1 : h < 10 <;> by_cases m1 : m < 10
  · simp only [hourChars, pad2, if_pos h1, if_pos m1, List.cons_append, List.nil_append]
    simp [readHM, digitVal?_digitChar _ h1, digitVal?_digitChar _ m1, digitVal?_colon,
      digitVal?_zero]
  · simp only [hourChars, pad2, if_pos h1, if_neg m1, List.cons_append, List.nil_append]
    simp [readHM, digitVal?_digitChar _ h1, digitVal?_digitChar _ hm10,
      digitVal?_digitChar _ hmdiv, digitVal?_colon, e1]
  · simp only [hourChars, pad2, if_neg h1, if_pos m1, List.cons_append, List.nil_append]
    simp [readHM, digitVal?_digitChar _ hd10, digitVal?_digitChar _ hdiv,
      digitVal?_digitChar _ m1, digitVal?_colon, digitVal?_zero, e2]
  · simp only [hourChars, pad2, if_neg h1, if_neg m1, List.cons_append, List.nil_append]
    simp [readHM, digitVal?_digitChar _ hd10, digitVal?_digitChar _ hdiv,
      digitVal?_digitChar _ hm10, digitVal?_digitChar _ hmdiv, digitVal?_colon, e1, e2]


theorem takeMarker_AM (t : Str) : takeMarker ('A' :: 'M' :: t) = (some .AM, t) := by
  simp [takeMarker]

theorem takeMarker_PM (t : Str) : takeMarker ('P' :: 'M' :: t) = (some .PM, t) := by
  simp [takeMarker]

theorem takeMarker_not {c : Char} (t : Str)
    (hA : c ≠ 'A') (hP : c ≠ 'P') (ha : c ≠ 'a') (hp2 : c ≠ 'p') :
    takeMarker (c :: t) = (none, c :: t) := by
  cases t <;> simp [takeMarker, hA, hP, ha, hp2]

theorem isSpc_A : isSpc 'A' = false := by decide
theorem isSpc_P : isSpc 'P' = false := by decide

theorem skipWs_space (t : Str) : skipWs (' ' :: t) = skipWs t := by
  simp [skipWs, isSpc]

theorem renderTime_cons (h m : Nat) (ap : Option Meridiem) (hh : h ≤ 99) :
    ∃ d t, renderTime h m ap = Nat.digitChar d :: t ∧ d < 10 := by
  by_cases hx : h < 10
  · refine ⟨h, ':' :: pad2 m ++ markerChars ap, ?_, hx⟩
    simp [renderTime, hourChars, if_pos hx]
  · refine ⟨h / 10, Nat.digitChar (h % 10) :: ':' :: pad2 m ++ markerChars ap, ?_, by omega⟩
    simp [renderTime, hourChars, if_neg hx]

theorem skipWs_renderTime (h m : Nat) (ap : Option Meridiem) (hh : h ≤ 99) :
    skipWs (renderTime h m ap) = renderTime h m ap := by
  obtain ⟨d, t, hdt, hd⟩ := renderTime_cons h m ap hh
  rw [hdt]
  exact skipWs_cons_not _ (isSpc_digitChar _ hd)

theorem readHM_renderTime (h m : Nat) (hh : h ≤ 99) (hm : m ≤ 99) (ap : Option Meridiem) :
    readHM (renderTime h m ap) = some (h, m, markerChars ap) := by
  show readHM (hourChars h ++ ':' :: pad2 m ++ markerChars ap) = _
  exact readHM_render h m hh hm _

theorem takeMarker_skipWs_marker (ap : Option Meridiem) :
    takeMarker (skipWs (markerChars ap)) = (ap, []) := by
  cases ap with
  | none => rfl
  | some mm =>
    cases mm
    · rw [show markerChars (some .AM) = 'A' :: 'M' :: [] from rfl,
        skipWs_cons_not _ isSpc_A, takeMarker_AM]
    · rw [show markerChars (some .PM) = 'P' :: 'M' :: [] from rfl,
        skipWs_cons_not _ isSpc_P, takeMarker_PM]

theorem takeMarker_not_head {c : Char} (t : Str)
    (hA : c ≠ 'A') (hP : c ≠ 'P') (ha : c ≠ 'a') (hp2 : c ≠ 'p') :
    takeMarker (c :: t) = (none, c :: t) := by
  cases t <;> simp [takeMarker, hA, hP, ha, hp2]

theorem matchAt_render (seps : List Char) (sep : Char)
    (h1 m1 : Nat) (ap1 : Option Meridiem) (h2 m2 : Nat) (ap2 : Option Meridiem)
    (hsep : sep ∈ seps) (hss : isSpc sep = false)
    (hsA : sep ≠ 'A') (hsP : sep ≠ 'P') (hsa : sep ≠ 'a') (hsp2 : sep ≠ 'p')
    (hh1 : h1 ≤ 99) (hm1 : m1 ≤ 99) (hh2 : h2 ≤ 99) (hm2 : m2 ≤ 99) :
    matchTimeRangeAt seps (renderRange sep h1 m1 ap1 h2 m2 ap2)
      = some (h1, m1, ap1, h2, m2, ap2) := by
  have hassoc : renderRange sep h1 m1 ap1 h2 m2 ap2
      = hourChars h1 ++ ':' :: pad2 m1 ++
          (markerChars ap1 ++ ' ' :: sep :: ' ' :: renderTime h2 m2 ap2) := by
    simp [renderRange, renderTime, List.append_assoc]
  unfold matchTimeRangeAt
  rw [hassoc, readHM_render h1 m1 hh1 hm1 _]
  dsimp only
  cases ap1 with
  | none =>
    rw [show takeMarker (skipWs (markerChars none ++ ' ' :: sep :: ' ' :: renderTime h2 m2 ap2))
        = (none, sep :: ' ' :: renderTime h2 m2 ap2) from by
      rw [show markerChars none ++ ' ' :: sep :: ' ' :: renderTime h2 m2 ap2
          = ' ' :: sep :: ' ' :: renderTime h2 m2 ap2 from rfl,
        skipWs_space, skipWs_cons_not _ hss,
        takeMarker_not_head _ hsA hsP hsa hsp2]]
    dsimp only
    rw [skipWs_cons_not _ hss]
    dsimp only
    rw [if_pos hsep]
    rw [skipWs_space, skipWs_renderTime h2 m2 ap2 hh2,
      readHM_renderTime h2 m2 hh2 hm2 ap2]
    dsimp only
    rw [takeMarker_skipWs_marker ap2]
  | some mm =>
    cases mm with
    | AM =>
      rw [show takeMarker (skipWs (markerChars (some .AM) ++ ' ' :: sep :: ' ' :: renderTime h2 m2 ap2))
          = (some .AM, ' ' :: sep :: ' ' :: renderTime h2 m2 ap2) from by
        rw [show markerChars (some .AM) ++ ' ' :: sep :: ' ' :: renderTime h2 m2 ap2
            = 'A' :: 'M' :: ' ' :: sep :: ' ' :: renderTime h2 m2 ap2 from rfl,
          skipWs_cons_not _ isSpc_A, takeMarker_AM]]
      dsimp only
      rw [skipWs_space, skipWs_cons_not _ hss]
      dsimp only
      rw [if_pos hsep]
      rw [skipWs_space, skipWs_renderTime h2 m2 ap2 hh2,
        readHM_renderTime h2 m2 hh2 hm2 ap2]
      dsimp only
      rw [takeMarker_skipWs_marker ap2]
    | PM =>
      rw [show takeMarker (skipWs (markerChars (some .PM) ++ ' ' :: sep :: ' ' :: renderTime h2 m2 ap2))
          = (some .PM, ' ' :: sep :: ' ' :: renderTime h2 m2 ap2) from by
        rw [show markerChars (some .PM) ++ ' ' :: sep :: ' ' :: renderTime h2 m2 ap2
            = 'P' :: 'M' :: ' ' :: sep :: ' ' :: renderTime h2 m2 ap2 from rfl,
          skipWs_cons_not _ isSpc_P, takeMarker_PM]]
      dsimp only
      rw [skipWs_space, skipWs_cons_not _ hss]
      dsimp only
      rw [if_pos hsep]
      rw [skipWs_space, skipWs_renderTime h2 m2 ap2 hh2,
        readHM_renderTime h2 m2 hh2 hm2 ap2]
      dsimp only
      rw [takeMarker_skipWs_marker ap2]


theorem renderRange_cons (sep : Char) (h1 m1 : Nat) (ap1 : Option Meridiem)
    (h2 m2 : Nat) (ap2 : Option Meridiem) (hh1 : h1 ≤ 99) :
    ∃ d t, renderRange sep h1 m1 ap1 h2 m2 ap2 = Nat.digitChar d :: t ∧ d < 10 := by
  obtain ⟨d, t, hdt, hd⟩ := renderTime_cons h1 m1 ap1 hh1
  refine ⟨d, t ++ ' ' :: sep :: ' ' :: renderTime h2 m2 ap2, ?_, hd⟩
  rw [show renderRange sep h1 m1 ap1 h2 m2 ap2
      = renderTime h1 m1 ap1 ++ ' ' :: sep :: ' ' :: renderTime h2 m2 ap2 from rfl, hdt]
  rfl

theorem searchTimeRange_head {seps : List Char} {c : Char} {t : Str}
    {g : Nat × Nat × Option Meridiem × Nat × Nat × Option Meridiem}
    (h : matchTimeRangeAt seps (c :: t) = some g) :
    searchTimeRange seps (c :: t) = some g := by
  simp [searchTimeRange, h, Option.orElse]

theorem to24_eq_spec (h m : Nat) (ap : Option Meridiem) :
    to24 h m ap = pad2 (spec_hour_24 h ap) ++ ':' :: pad2 m := by
  cases ap with
  | none => rfl
  | some mm =>
    cases mm with
    | AM => rfl
    | PM =>
      by_cases h12 : h = 12 <;> simp [to24, spec_hour_24, h12]

theorem parse_render (seps : List Char) (sep : Char)
    (h1 m1 : Nat) (ap1 : Option Meridiem) (h2 m2 : Nat) (ap2 : Option Meridiem)
    (hsep : sep ∈ seps) (hss : isSpc sep = false)
    (hsA : sep ≠ 'A') (hsP : sep ≠ 'P') (hsa : sep ≠ 'a') (hsp2 : sep ≠ 'p')
    (hh1 : h1 ≤ 99) (hm1 : m1 ≤ 99) (hh2 : h2 ≤ 99) (hm2 : m2 ≤ 99) :
    searchTimeRange seps (renderRange sep h1 m1 ap1 h2 m2 ap2)
      = some (h1, m1, ap1, h2, m2, ap2) := by
  obtain ⟨d, t, hdt, hd⟩ := renderRange_cons sep h1 m1 ap1 h2 m2 ap2 hh1
  have hm := matchAt_render seps sep h1 m1 ap1 h2 m2 ap2 hsep hss hsA hsP hsa hsp2
    hh1 hm1 hh2 hm2
  rw [hdt] at hm ⊢
  exact searchTimeRange_head hm

/-- C3: for every valid 12-hour time-range text (each side `H:MM` with an
optional AM/PM marker, separated by a hyphen), both modules' parsers return
exactly the claim's 24-hour conversion: 12 AM to 00, 12 PM stays 12,
1–11 PM gains 12, an unmarked hour is kept, minutes preserved, both fields
zero-padded to two digits. -/
theorem c3_twelve_hour_conversion (h1 m1 h2 m2 : Nat) (ap1 ap2 : Option Meridiem)
    (hl1 : 1 ≤ h1) (hu1 : h1 ≤ 12) (hm1 : m1 ≤ 59)
    (hl2 : 1 ≤ h2) (hu2 : h2 ≤ 12) (hm2 : m2 ≤ 59) :
    parse_time_range_teaching (renderRange '-' h1 m1 ap1 h2 m2 ap2)
      = some (pad2 (spec_hour_24 h1 ap1) ++ ':' :: pad2 m1,
              pad2 (spec_hour_24 h2 ap2) ++ ':' :: pad2 m2)
    ∧ parse_time_range_schedule (renderRange '-' h1 m1 ap1 h2 m2 ap2)
      = some (pad2 (spec_hour_24 h1 ap1) ++ ':' :: pad2 m1,
              pad2 (spec_hour_24 h2 ap2) ++ ':' :: pad2 m2) := by
  have hsT := parse_render ['-'] '-' h1 m1 ap1 h2 m2 ap2 (by decide) (by decide)
    (by decide) (by decide) (by decide) (by decide)
    (by omega) (by omega) (by omega) (by omega)
  have hsS := parse_render ['-', '–'] '-' h1 m1 ap1 h2 m2 ap2 (by decide) (by decide)
    (by decide) (by decide) (by decide) (by decide)
    (by omega) (by omega) (by omega) (by omega)
  constructor
  · unfold parse_time_range_teaching
    rw [hsT]
    simp only [Option.map_some']
    rw [to24_eq_spec, to24_eq_spec]
  · unfold parse_time_range_schedule
    rw [hsS]
    simp only [Option.map_some']
    rw [to24_eq_spec, to24_eq_spec]

/-- Witness for C3 at noon/midnight edge values. -/
theorem c3_witness :
    parse_time_range_teaching (renderRange '-' 12 0 (some .AM) 12 30 (some .PM))
      = some ("00:00".data, "12:30".data)
    ∧ parse_time_range_teaching (renderRange '-' 6 30 (some .PM) 9 15 none)
      = some ("18:30".data, "09:15".data) := by
  constructor
  · rw [(c3_twelve_hour_conversion 12 0 12 30 (some .AM) (some .PM)
      (by decide) (by decide) (by decide) (by decide) (by decide) (by decide)).1]
    decide
  · rw [(c3_twelve_hour_conversion 6 30 9 15 (some .PM) none
      (by decide) (by decide) (by decide) (by decide) (by decide) (by decide)).1]
    decide


/-- C6 counterexample: on an en-dash separated range, `teaching_html`'s
`_parse_time_range` returns `None` while `schedule_html`'s returns the pair —
the claim says both modules accept hyphen or en-dash. -/
theorem c6_counterexample :
    parse_time_range_teaching "10:30 – 11:15".data = none
    ∧ parse_time_range_schedule "10:30 – 11:15".data
        = some ("10:30".data, "11:15".data) := by decide

/-- C6 (amended): the hyphen is accepted by both modules' time-range parsers,
but the en-dash only by `schedule_html`'s (whose separator class is `[-–]`;
`teaching_html`'s is `-` alone). -/
theorem c6_separator_support (h1 m1 h2 m2 : Nat) (ap1 ap2 : Option Meridiem)
    (hh1 : h1 ≤ 99) (hm1 : m1 ≤ 99) (hh2 : h2 ≤ 99) (hm2 : m2 ≤ 99) :
    parse_time_range_schedule (renderRange '–' h1 m1 ap1 h2 m2 ap2)
      = some (to24 h1 m1 ap1, to24 h2 m2 ap2)
    ∧ parse_time_range_schedule (renderRange '-' h1 m1 ap1 h2 m2 ap2)
      = some (to24 h1 m1 ap1, to24 h2 m2 ap2)
    ∧ parse_time_range_teaching (renderRange '-' h1 m1 ap1 h2 m2 ap2)
      = some (to24 h1 m1 ap1, to24 h2 m2 ap2) := by
  refine ⟨?_, ?_, ?_⟩
  · unfold parse_time_range_schedule
    rw [parse_render ['-', '–'] '–' h1 m1 ap1 h2 m2 ap2 (by decide) (by decide)
      (by decide) (by decide) (by decide) (by decide) hh1 hm1 hh2 hm2]
    rfl
  · unfold parse_time_range_schedule
    rw [parse_render ['-', '–'] '-' h1 m1 ap1 h2 m2 ap2 (by decide) (by decide)
      (by decide) (by decide) (by decide) (by decide) hh1 hm1 hh2 hm2]
    rfl
  · unfold parse_time_range_teaching
    rw [parse_render ['-'] '-' h1 m1 ap1 h2 m2 ap2 (by decide) (by decide)
      (by decide) (by decide) (by decide) (by decide) hh1 hm1 hh2 hm2]
    rfl

/-- Witness for the amended C6 at a concrete en-dash range. -/
theorem c6_witness :
    parse_time_range_schedule (renderRange '–' 9 30 none 10 15 none)
      = some ("09:30".data, "10:15".data) := by
  rw [(c6_separator_support 9 30 10 15 none none
    (by decide) (by decide) (by decide) (by decide)).1]
  decide

theorem countLeading_cons (p : Char → Bool) (c : Char) (t : Str) :
    countLeading p (c :: t) = if p c then countLeading p t + 1 else 0 := rfl

theorem countLeading_append_all {p : Char → Bool} {xs : Str} (ys : Str)
    (h : xs.all p = true) :
    countLeading p (xs ++ ys) = xs.length + countLeading p ys := by
  induction xs with
  | nil => simp [countLeading]
  | cons c t ih =>
    simp only [List.all_cons, Bool.and_eq_true] at h
    rw [List.cons_append, countLeading_cons, if_pos h.1, ih h.2, List.length_cons]
    omega

theorem countLeading_stop {p : Char → Bool} {xs ys : Str} (hall : xs.all p = true)
    (hhead : ∀ c, ys.head? = some c → p c = false) :
    countLeading p (xs ++ ys) = xs.length := by
  rw [countLeading_append_all ys hall]
  cases ys with
  | nil => simp [countLeading]
  | cons c t =>
    have := hhead c rfl
    simp [countLeading_cons, this]

theorem not_isUpperC_of_isDigitC {c : Char} (h : isDigitC c = true) :
    isUpperC c = false := by
  simp only [isDigitC, Bool.and_eq_true, decide_eq_true_eq] at h
  simp only [isUpperC, Bool.and_eq_false_iff, decide_eq_false_iff_not]
  omega

theorem regexTail_no_newline {rest : Str} (h : '\n' ∉ rest) :
    regexTail rest = some rest := by
  unfold regexTail
  rw [if_pos h]

/-- C5 counterexample: `teaching_html._split_class_code("CS202")` returns
`("", "CS202", "")` (its regex demands exactly four letters and four digits),
and `schedule_html._split_class_code("ROSE5720-")` keeps the raw remainder
`"-"` as the section — both contradict the claimed 2–6/3–4 shape with a
whitespace-and-hyphen-stripped section, stated here by `spec_split_claim`. -/
theorem c5_counterexample :
    (split_class_code_teaching "CS202".data = ([], "CS202".data, [])
      ∧ spec_split_claim "CS202".data = ("CS".data, "202".data, []))
    ∧ (split_class_code_schedule "ROSE5720-".data
        = ("ROSE".data, "5720".data, "-".data)
      ∧ spec_split_claim "ROSE5720-".data = ("ROSE".data, "5720".data, [])) := by
  decide

/-- C5 (amended): on a stripped input `subject ++ catalog ++ tail` with the
subject all uppercase, the catalog all digits, the tail not starting with a
digit, and the tail free of newlines and of whitespace outside the ASCII
class of `str.strip()` (so the regex's `(.*)$` group accepts it and the
strip is exact), `schedule_html._split_class_code` splits it whenever the
subject has 2–6 letters and the catalog 3–4 digits, returning the tail RAW
(no stripping of whitespace or hyphens); `teaching_html._split_class_code`
splits only the exactly-4-letters-4-digits form and returns the fallback
`("", input, "")` on subjects of length 2–3. -/
theorem c5_splitter_characterization (subj cat tail : Str)
    (hstrip : pyStrip (subj ++ (cat ++ tail)) = subj ++ (cat ++ tail))
    (hsubjU : subj.all isUpperC = true)
    (hcatD : cat.all isDigitC = true)
    (htail : ∀ c, tail.head? = some c → isDigitC c = false)
    (htail2 : ∀ c ∈ tail, c.toNat < 128 ∧ c ≠ '\n'
      ∧ ¬(28 ≤ c.toNat ∧ c.toNat ≤ 31)) :
    (2 ≤ subj.length → subj.length ≤ 6 → 3 ≤ cat.length → cat.length ≤ 4 →
      split_class_code_schedule (subj ++ (cat ++ tail)) = (subj, cat, tail))
    ∧ (subj.length = 4 → cat.length = 4 →
      split_class_code_teaching (subj ++ (cat ++ tail)) = (subj, cat, tail))
    ∧ (2 ≤ subj.length → subj.length ≤ 3 → 3 ≤ cat.length →
      split_class_code_teaching (subj ++ (cat ++ tail))
        = ([], subj ++ (cat ++ tail), [])) := by
  have hheadU : cat ≠ [] → ∀ c, (cat ++ tail).head? = some c → isUpperC c = false := by
    intro hne c hc
    cases cat with
    | nil => exact absurd rfl hne
    | cons c0 t0 =>
      simp only [List.cons_append, List.head?_cons, Option.some.injEq] at hc
      subst hc
      simp only [List.all_cons, Bool.and_eq_true] at hcatD
      exact not_isUpperC_of_isDigitC hcatD.1
  have hD : countLeading isDigitC (cat ++ tail) = cat.length :=
    countLeading_stop hcatD htail
  have hnl : '\n' ∉ tail := fun hm => (htail2 '\n' hm).2.1 rfl
  refine ⟨?_, ?_, ?_⟩
  · intro h2 h6 h3 h4
    have hne : cat ≠ [] := by
      intro he
      rw [he] at h3
      simp at h3
    have hL : countLeading isUpperC (subj ++ (cat ++ tail)) = subj.length :=
      countLeading_stop hsubjU (hheadU hne)
    have hk : (if 4 ≤ cat.length then 4 else 3) = cat.length := by
      split_ifs with hx <;> omega
    simp only [split_class_code_schedule, hstrip]
    rw [hL, List.drop_left, hD, hk]
    rw [if_pos]
    · rw [List.take_left, List.take_left, List.drop_left,
        regexTail_no_newline hnl]
    · simp only [Bool.and_eq_true, decide_eq_true_eq]
      omega
  · intro hs4 hc4
    have ht1 : (subj ++ (cat ++ tail)).take 4 = subj := by
      rw [← hs4, List.take_left]
    have ht2 : (subj ++ (cat ++ tail)).drop 4 = cat ++ tail := by
      rw [← hs4, List.drop_left]
    have ht3 : (cat ++ tail).take 4 = cat := by
      rw [← hc4, List.take_left]
    have ht4 : (subj ++ (cat ++ tail)).drop 8 = tail := by
      rw [← List.append_assoc,
        show (8 : Nat) = (subj ++ cat).length by simp [hs4, hc4], List.drop_left]
    simp only [split_class_code_teaching, hstrip]
    rw [ht1, ht2, ht3, ht4]
    rw [if_pos]
    · rw [regexTail_no_newline hnl]
    · simp only [Bool.and_eq_true, decide_eq_true_eq]
      exact ⟨⟨⟨hs4, hsubjU⟩, hc4⟩, hcatD⟩
  · intro h2 h3up h3
    cases cat with
    | nil => simp at h3
    | cons c0 t0 =>
      simp only [List.all_cons, Bool.and_eq_true] at hcatD
      have hc0 : isUpperC c0 = false := not_isUpperC_of_isDigitC hcatD.1
      have htk : (subj ++ (c0 :: t0 ++ tail)).take 4
          = subj ++ c0 :: (t0 ++ tail).take (4 - subj.length - 1) := by
        rw [List.take_append_eq_append_take, List.take_of_length_le (by omega)]
        congr 1
        cases h : 4 - subj.length with
        | zero => omega
        | succ n =>
          simp only [List.cons_append, List.take_succ_cons]
          simp
      have hfalse : ((subj ++ (c0 :: t0 ++ tail)).take 4).all isUpperC = false := by
        rw [htk]
        simp [hc0]
      simp only [split_class_code_teaching, hstrip]
      rw [if_neg]
      simp only [List.cons_append] at hfalse ⊢
      simp [hfalse]

/-- Witness for the amended C5 on both modules' accepted shapes. -/
theorem c5_witness :
    split_class_code_schedule ("CS".data ++ ("202".data ++ [])) =
      ("CS".data, "202".data, [])
    ∧ split_class_code_teaching ("MATH".data ++ ("1010".data ++ "A".data)) =
      ("MATH".data, "1010".data, "A".data)
    ∧ split_class_code_teaching ("CS".data ++ ("202".data ++ [])) =
      ([], "CS".data ++ ("202".data ++ []), []) := by
  refine ⟨?_, ?_, ?_⟩
  · exact (c5_splitter_characterization "CS".data "202".data []
      (by decide) (by decide) (by decide) (by intro c hc; cases hc)
      (by intro c hc; cases hc)).1
      (by decide) (by decide) (by decide) (by decide)
  · exact (c5_splitter_characterization "MATH".data "1010".data "A".data
      (by decide) (by decide) (by decide) (by decide) (by decide)).2.1
      (by decide) (by decide)
  · exact (c5_splitter_characterization "CS".data "202".data []
      (by decide) (by decide) (by decide) (by intro c hc; cases hc)
      (by intro c hc; cases hc)).2.2
      (by decide) (by decide) (by decide)

theorem finishIfDates_ok {se : Option Date × Option Date}
    {build : Date → Date → List α} {m1 m2 : String} {l : List α}
    (h : finishIfDates se build m1 m2 = .ok l) :
    ∃ ts te, l = build ts te := by
  obtain ⟨a, b⟩ := se
  cases a <;> cases b <;> simp only [finishIfDates] at h
  · cases h
  · cases h
  · cases h
  · exact ⟨_, _, (finishNonempty_ok h).1⟩

theorem teach_keyed_ok_shape {soup : List TTable} {sD eD : Option Date}
    {hint : Str} {sel : List Str} {ty : Nat} {lk : List (TKey × MRec)}
    (h : parse_teaching_html_keyed soup sD eD hint sel ty = .ok lk) :
    ∃ (table : TTable) (headerKeys : List Str) (ts te : Date),
      lk = (table.rows.foldl
        (teachRowStep headerKeys ts te hint
          ((sel.map pyStrip).filter (fun s => s ≠ []))) {}).recsK := by
  simp only [parse_teaching_html_keyed] at h
  repeat' split at h
  all_goals first
  | cases h
  | · obtain ⟨ts, te, hb⟩ := finishIfDates_ok h
      exact ⟨_, _, ts, te, hb⟩

theorem teachEmit_sel (termStart endD : Date) (hint : Str) (sel : List Str)
    (v : RowVals) (dn : Str) (tse : Str × Str) (st1 : TState)
    (hsel : sel ≠ [])
    (hinv : ∀ kr ∈ st1.recsK,
      record_matches_selected kr.2.CLASS_CODE_RAW kr.2.CLASS_NBR sel = true) :
    ∀ kr ∈ (teachEmit termStart endD hint sel v dn tse st1).recsK,
      record_matches_selected kr.2.CLASS_CODE_RAW kr.2.CLASS_NBR sel = true := by
  intro kr hkr
  simp only [teachEmit] at hkr
  split at hkr
  · exact hinv kr hkr
  · split at hkr
    · exact hinv kr hkr
    · next hcond =>
      rcases List.mem_append.mp hkr with h | h
      · exact hinv kr h
      · rw [List.mem_singleton] at h
        subst h
        dsimp only
        by_contra hm
        exact hcond ⟨hsel, hm⟩

theorem teachRowStep_sel (headerKeys : List Str) (termStart endD : Date)
    (hint : Str) (sel : List Str) (st : TState) (row : TRow)
    (hsel : sel ≠ [])
    (hinv : ∀ kr ∈ st.recsK,
      record_matches_selected kr.2.CLASS_CODE_RAW kr.2.CLASS_NBR sel = true) :
    ∀ kr ∈ (teachRowStep headerKeys termStart endD hint sel st row).recsK,
      record_matches_selected kr.2.CLASS_CODE_RAW kr.2.CLASS_NBR sel = true := by
  intro kr hkr
  simp only [teachRowStep] at hkr
  split at hkr
  · exact hinv kr hkr
  · split at hkr
    · exact teachEmit_sel termStart endD hint sel _ _ _ _ hsel
        (fun kr2 hkr2 => hinv kr2 (by rwa [teachCarry_recsK] at hkr2)) kr hkr
    · rw [teachCarry_recsK] at hkr
      exact hinv kr hkr

theorem teachFold_sel (headerKeys : List Str) (termStart endD : Date)
    (hint : Str) (sel : List Str) (hsel : sel ≠ []) :
    ∀ (rows : List TRow) (st : TState),
      (∀ kr ∈ st.recsK,
        record_matches_selected kr.2.CLASS_CODE_RAW kr.2.CLASS_NBR sel = true) →
      ∀ kr ∈ (rows.foldl
          (teachRowStep headerKeys termStart endD hint sel) st).recsK,
        record_matches_selected kr.2.CLASS_CODE_RAW kr.2.CLASS_NBR sel = true := by
  intro rows
  induction rows with
  | nil => intro st hinv; exact hinv
  | cons r rs ih =>
    intro st hinv
    exact ih _ (teachRowStep_sel headerKeys termStart endD hint sel st r hsel hinv)

/-- C9 counterexample: with selection `["9578"]`, a row whose class number is
`"1234"` but whose class code `"ROSE9578-"` merely CONTAINS `"9578"` is kept
by `parse_teaching_html` — the identifier matches through the substring rule
`t in code_raw`, which the claim rules out. -/
theorem c9_counterexample :
    (parse_teaching_html
      [⟨true, [[(true, "Class Code".data), (true, "Class Nbr".data),
                (true, "Day".data), (true, "Time".data)],
               [(false, "ROSE9578-".data), (false, "1234".data),
                (false, "Mon".data), (false, "9:30 - 10:15".data)]]⟩]
      (some 739621) (some 739700) [] ["9578".data] 2026).toOption.map
        (List.map (fun r => (r.CLASS_NBR, r.CLASS_CODE_RAW)))
    = some [("1234".data, "ROSE9578-".data)] := by decide

/-- C9 (amended): with a nonempty (stripped) selection set, every record
`parse_teaching_html` returns matches some selected identifier under the
code's actual rule — equal class number, or nonempty class code that the
identifier equals, is a prefix of, or occurs anywhere inside as a substring;
in particular `"ROSE5720"` matches code `"ROSE5720-"` by the prefix rule, but
a bare class number also matches any code containing it. -/
theorem c9_selection_filter (soup : List TTable) (startDate endDate : Option Date)
    (subjectHint : Str) (selectedClasses : List Str) (todayYear : Nat)
    (l : List MRec)
    (hok : parse_teaching_html soup startDate endDate subjectHint selectedClasses
      todayYear = .ok l)
    (hsel : (selectedClasses.map pyStrip).filter (fun s => s ≠ []) ≠ []) :
    ∀ rec ∈ l,
      record_matches_selected rec.CLASS_CODE_RAW rec.CLASS_NBR
        ((selectedClasses.map pyStrip).filter (fun s => s ≠ [])) = true := by
  intro rec hrec
  unfold parse_teaching_html at hok
  cases hk : parse_teaching_html_keyed soup startDate endDate subjectHint
      selectedClasses todayYear with
  | error e =>
    rw [hk] at hok
    cases hok
  | ok lk =>
    rw [hk] at hok
    simp only [Except.map] at hok
    injection hok with hok
    subst hok
    obtain ⟨kr, hkrm, hkr2⟩ := List.mem_map.mp hrec
    obtain ⟨table, headerKeys, ts, te, hlk⟩ := teach_keyed_ok_shape hk
    subst hlk
    subst hkr2
    exact teachFold_sel headerKeys ts te subjectHint _ hsel table.rows {}
      (by intro kr2 hkr2; cases hkr2) kr hkrm

/-- Witness for the amended C9: the record kept through the prefix rule
(`"ROSE5720"` selects code `"ROSE5720-"`) indeed matches the selection. -/
theorem c9_witness :
    record_matches_selected "ROSE5720-".data "9578".data ["ROSE5720".data] = true := by
  exact c9_selection_filter
    [⟨true, [[(true, "Class Code".data), (true, "Class Nbr".data),
              (true, "Day".data), (true, "Time".data)],
             [(false, "ROSE5720-".data), (false, "9578".data),
              (false, "Mon".data), (false, "9:30 - 10:15".data)]]⟩]
    (some 739621) (some 739700) [] ["ROSE5720".data] 2026
    [{ CLASS_CODE_RAW := "ROSE5720-".data, CLASS_NBR := "9578".data,
       SUBJECT := "ROSE".data, CATALOG_NBR := "5720".data,
       CLASS_SECTION := "-".data, DESCR := "5720".data,
       INSTRUCTORS := [], FDESCR := [], COMDESC := "ROSE".data,
       START_DT := 739621, END_DT := 739700,
       MEETING_TIME_START := "09:30".data, MEETING_TIME_END := "10:15".data }]
    (by rfl) (by decide) _ (List.mem_singleton.mpr rfl)

theorem teachEmit_keys (termStart endD : Date) (hint : Str) (sel : List Str)
    (v : RowVals) (dn : Str) (tse : Str × Str) (st1 : TState)
    (h1 : (st1.recsK.map (·.1)).Nodup)
    (h2 : ∀ k ∈ st1.recsK.map (·.1), k ∈ st1.seen) :
    ((teachEmit termStart endD hint sel v dn tse st1).recsK.map (·.1)).Nodup
    ∧ ∀ k ∈ (teachEmit termStart endD hint sel v dn tse st1).recsK.map (·.1),
        k ∈ (teachEmit termStart endD hint sel v dn tse st1).seen := by
  simp only [teachEmit]
  split
  · exact ⟨h1, h2⟩
  · next hseen =>
    split
    · exact ⟨h1, fun k hk => List.mem_cons_of_mem _ (h2 k hk)⟩
    · constructor
      · rw [List.map_append, List.nodup_append]
        refine ⟨h1, List.nodup_singleton _, ?_⟩
        intro a ha hb
        simp only [List.map_cons, List.map_nil, List.mem_singleton] at hb
        subst hb
        exact hseen (h2 _ ha)
      · intro k hk
        rw [List.map_append] at hk
        rcases List.mem_append.mp hk with h | h
        · exact List.mem_cons_of_mem _ (h2 k h)
        · simp only [List.map_cons, List.map_nil, List.mem_singleton] at h
          subst h
          exact List.mem_cons_self _ _

theorem teachRowStep_keys (headerKeys : List Str) (termStart endD : Date)
    (hint : Str) (sel : List Str) (st : TState) (row : TRow)
    (h1 : (st.recsK.map (·.1)).Nodup)
    (h2 : ∀ k ∈ st.recsK.map (·.1), k ∈ st.seen) :
    ((teachRowStep headerKeys termStart endD hint sel st row).recsK.map (·.1)).Nodup
    ∧ ∀ k ∈ (teachRowStep headerKeys termStart endD hint sel st row).recsK.map (·.1),
        k ∈ (teachRowStep headerKeys termStart endD hint sel st row).seen := by
  simp only [teachRowStep]
  split
  · exact ⟨h1, h2⟩
  · split
    · exact teachEmit_keys termStart endD hint sel _ _ _ _
        (by rwa [teachCarry_recsK])
        (by rw [teachCarry_recsK, teachCarry_seen]; exact h2)
    · rw [teachCarry_recsK, teachCarry_seen]
      exact ⟨h1, h2⟩

theorem teachFold_keys (headerKeys : List Str) (termStart endD : Date)
    (hint : Str) (sel : List Str) :
    ∀ (rows : List TRow) (st : TState),
      (st.recsK.map (·.1)).Nodup →
      (∀ k ∈ st.recsK.map (·.1), k ∈ st.seen) →
      ((rows.foldl (teachRowStep headerKeys termStart endD hint sel) st).recsK.map
        (·.1)).Nodup
      ∧ ∀ k ∈ (rows.foldl (teachRowStep headerKeys termStart endD hint sel)
            st).recsK.map (·.1),
          k ∈ (rows.foldl (teachRowStep headerKeys termStart endD hint sel) st).seen := by
  intro rows
  induction rows with
  | nil => intro st h1 h2; exact ⟨h1, h2⟩
  | cons r rs ih =>
    intro st h1 h2
    obtain ⟨h1a, h2a⟩ := teachRowStep_keys headerKeys termStart endD hint sel st r h1 h2
    exact ih _ h1a h2a

theorem schedRecStep_keys (ts te : Date)
    (st : List SKey × List (SKey × MRec)) (raw : RawRec)
    (h1 : (st.2.map (·.1)).Nodup)
    (h2 : ∀ k ∈ st.2.map (·.1), k ∈ st.1) :
    ((schedRecStep ts te st raw).2.map (·.1)).Nodup
    ∧ ∀ k ∈ (schedRecStep ts te st raw).2.map (·.1),
        k ∈ (schedRecStep ts te st raw).1 := by
  simp only [schedRecStep]
  split
  · exact ⟨h1, h2⟩
  · split
    · exact ⟨h1, h2⟩
    · next hseen =>
      constructor
      · rw [List.map_append, List.nodup_append]
        refine ⟨h1, List.nodup_singleton _, ?_⟩
        intro a ha hb
        simp only [List.map_cons, List.map_nil, List.mem_singleton] at hb
        subst hb
        exact hseen (h2 _ ha)
      · intro k hk
        rw [List.map_append] at hk
        rcases List.mem_append.mp hk with h | h
        · exact List.mem_cons_of_mem _ (h2 k h)
        · simp only [List.map_cons, List.map_nil, List.mem_singleton] at h
          subst h
          exact List.mem_cons_self _ _

theorem schedFold_keys (ts te : Date) :
    ∀ (raws : List RawRec) (st : List SKey × List (SKey × MRec)),
      (st.2.map (·.1)).Nodup →
      (∀ k ∈ st.2.map (·.1), k ∈ st.1) →
      ((raws.foldl (schedRecStep ts te) st).2.map (·.1)).Nodup
      ∧ ∀ k ∈ (raws.foldl (schedRecStep ts te) st).2.map (·.1),
          k ∈ (raws.foldl (schedRecStep ts te) st).1 := by
  intro raws
  induction raws with
  | nil => intro st h1 h2; exact ⟨h1, h2⟩
  | cons r rs ih =>
    intro st h1 h2
    obtain ⟨h1a, h2a⟩ := schedRecStep_keys ts te st r h1 h2
    exact ih _ h1a h2a

theorem sched_keyed_ok_shape {soup : SSoup} {sD eD : Option Date} {tY tM : Nat}
    {ls : List (SKey × MRec)}
    (h : parse_schedule_html_keyed soup sD eD tY tM = .ok ls) :
    ∃ (raws : List RawRec) (ts te : Date),
      ls = (raws.foldl (schedRecStep ts te) ([], [])).2 := by
  simp only [parse_schedule_html_keyed] at h
  repeat' split at h
  all_goals first
  | cases h
  | · obtain ⟨ts, te, hb⟩ := finishIfDates_ok h
      exact ⟨_, ts, te, hb⟩

/-- C2 counterexample: two teaching rows carrying the SAME course, class
number, day and parsed start time but different raw time texts
(`"9:30 - 10:15"` vs `"09:30 - 10:15"`) and different rooms both survive
de-duplication: `parse_teaching_html` returns two distinct records (rooms
differ) that agree on the claim's whole tuple
`(class_code_raw, class_number, day-or-date, meeting_time_start)`. -/
theorem c2_counterexample :
    (parse_teaching_html
      [⟨true, [[(true, "Class Code".data), (true, "Class Nbr".data),
                (true, "Day".data), (true, "Time".data), (true, "Room".data)],
               [(false, "ROSE5720-".data), (false, "9578".data),
                (false, "Mon".data), (false, "9:30 - 10:15".data),
                (false, "Room A".data)],
               [(false, "ROSE5720-".data), (false, "9578".data),
                (false, "Mon".data), (false, "09:30 - 10:15".data),
                (false, "Room B".data)]]⟩]
      (some 739621) (some 739700) [] [] 2026).toOption.map
        (List.map (fun r => (claimC2TupleOf r, r.FDESCR)))
    = some
      [(("ROSE5720-".data, "9578".data, 739621, "09:30".data), "Room A".data),
       (("ROSE5720-".data, "9578".data, 739621, "09:30".data), "Room B".data)] := by
  rfl

/-- C2 (amended): the actual de-duplication keys are `Nodup` within one
extraction run — for teaching `(class code raw, class nbr, normalized day,
RAW time-cell text)`, for schedule `(class code raw, day name, parsed start,
parsed end)`; the claim's tuple with the parsed start time is not a key for
the teaching extractor. -/
theorem c2_dedup_keys
    (tsoup : List TTable) (sD eD : Option Date) (hint : Str) (sel : List Str)
    (ty : Nat) (ssoup : SSoup) (sD2 eD2 : Option Date) (tY tM : Nat)
    (lt : List (TKey × MRec)) (ls : List (SKey × MRec))
    (ht : parse_teaching_html_keyed tsoup sD eD hint sel ty = .ok lt)
    (hs : parse_schedule_html_keyed ssoup sD2 eD2 tY tM = .ok ls) :
    (lt.map (·.1)).Nodup ∧ (ls.map (·.1)).Nodup := by
  constructor
  · obtain ⟨table, headerKeys, ts, te, hlk⟩ := teach_keyed_ok_shape ht
    subst hlk
    exact (teachFold_keys headerKeys ts te hint _ table.rows {}
      List.nodup_nil (by intro k hk; cases hk)).1
  · obtain ⟨raws, ts, te, hls⟩ := sched_keyed_ok_shape hs
    subst hls
    exact (schedFold_keys ts te raws ([], [])
      List.nodup_nil (by intro k hk; cases hk)).1

/-- Witness for the amended C2 on concrete runs of both extractors. -/
theorem c2_witness :
    ([(("ROSE5720-".data, "9578".data, "Mon".data, "9:30 - 10:15".data) : TKey),
      ("ROSE5720-".data, "9578".data, "Mon".data, "09:30 - 10:15".data)]).Nodup
    ∧ ([(("ROSE5720".data, "Mon".data, "09:30".data, "10:15".data) : SKey)]).Nodup := by
  exact c2_dedup_keys
    [⟨true, [[(true, "Class Code".data), (true, "Class Nbr".data),
              (true, "Day".data), (true, "Time".data), (true, "Room".data)],
             [(false, "ROSE5720-".data), (false, "9578".data),
              (false, "Mon".data), (false, "9:30 - 10:15".data),
              (false, "Room A".data)],
             [(false, "ROSE5720-".data), (false, "9578".data),
              (false, "Mon".data), (false, "09:30 - 10:15".data),
              (false, "Room B".data)]]⟩]
    (some 739621) (some 739700) [] [] 2026
    ⟨none, [⟨"CLASSNAME$0".data, [], "ROSE5720 - Topic".data⟩,
            ⟨"CLASS_TIME$0".data, [], "09:30 - 10:15".data⟩,
            ⟨"MTG_PAT$0".data, [], "Mo".data⟩]⟩
    (some 739621) (some 739700) 2026 1
    [(("ROSE5720-".data, "9578".data, "Mon".data, "9:30 - 10:15".data),
      { CLASS_CODE_RAW := "ROSE5720-".data, CLASS_NBR := "9578".data,
        SUBJECT := "ROSE".data, CATALOG_NBR := "5720".data,
        CLASS_SECTION := "-".data, DESCR := "5720".data,
        INSTRUCTORS := [], FDESCR := "Room A".data, COMDESC := "ROSE".data,
        START_DT := 739621, END_DT := 739700,
        MEETING_TIME_START := "09:30".data, MEETING_TIME_END := "10:15".data }),
     (("ROSE5720-".data, "9578".data, "Mon".data, "09:30 - 10:15".data),
      { CLASS_CODE_RAW := "ROSE5720-".data, CLASS_NBR := "9578".data,
        SUBJECT := "ROSE".data, CATALOG_NBR := "5720".data,
        CLASS_SECTION := "-".data, DESCR := "5720".data,
        INSTRUCTORS := [], FDESCR := "Room B".data, COMDESC := "ROSE".data,
        START_DT := 739621, END_DT := 739700,
        MEETING_TIME_START := "09:30".data, MEETING_TIME_END := "10:15".data })]
    [(("ROSE5720".data, "Mon".data, "09:30".data, "10:15".data),
      { CLASS_CODE_RAW := "ROSE5720".data, CLASS_NBR := [],
        SUBJECT := "ROSE".data, CATALOG_NBR := "5720".data,
        CLASS_SECTION := [], DESCR := "Topic".data,
        INSTRUCTORS := [], FDESCR := [], COMDESC := "ROSE".data,
        START_DT := 739621, END_DT := 739700,
        MEETING_TIME_START := "09:30".data, MEETING_TIME_END := "10:15".data })]
    (by rfl) (by rfl)

theorem foldl_min_le_init : ∀ (ds : List Nat) (d : Nat), ds.foldl Nat.min d ≤ d := by
  intro ds
  induction ds with
  | nil => intro d; exact Nat.le_refl d
  | cons x xs ih =>
    intro d
    exact Nat.le_trans (ih (Nat.min d x)) (Nat.min_le_left d x)

theorem le_foldl_max_init : ∀ (ds : List Nat) (d : Nat), d ≤ ds.foldl Nat.max d := by
  intro ds
  induction ds with
  | nil => intro d; exact Nat.le_refl d
  | cons x xs ih =>
    intro d
    exact Nat.le_trans (Nat.le_max_left d x) (ih (Nat.max d x))

/-- C8 counterexample: in a Meeting Date column with a fully-qualified
comma-style token `"05/01/2025"` and an abbreviated `"6/1"`, with today in
2026, the code infers `(2025-01-05, 2026-01-06)`: the first pass takes a year
hint ONLY from `" - "` range cells, so the fully-qualified token's 2025 is
ignored and `6/1` resolves with the current year — while the claim's rule
(`spec_infer_claim`, hint from ANY fully-qualified token) yields
`(2025-01-05, 2025-01-06)`. -/
theorem c8_counterexample :
    infer_term_dates_from_table
      ⟨true, [[(true, "Meeting Date".data)],
              [(false, "05/01/2025".data)],
              [(false, "6/1".data)]]⟩
      ["meeting date".data] 2026
      = (some 739256, some 739622)
    ∧ spec_infer_claim
      ⟨true, [[(true, "Meeting Date".data)],
              [(false, "05/01/2025".data)],
              [(false, "6/1".data)]]⟩
      ["meeting date".data] 2026
      = (some 739256, some 739257) := by decide

/-- C8 (amended): the inferred span is `(min, max)` over all dates parsed
from the Meeting Date column (so the start never exceeds the end), but the
year hint comes only from the first fully-qualified side of a `" - "` RANGE
cell, today's year when no range cell supplies one; whenever that range-only
scan agrees with the claim's any-token scan, the code's result coincides with
the claim's rule (`spec_infer_claim`). -/
theorem c8_term_inference (t : TTable) (headerKeys : List Str) (todayYear : Nat)
    (hagree : (headerKeys.findIdx?
        (fun k => hasSub k "meeting".data && hasSub k "date".data)).elim true
      (fun idx => decide ((meetingCellTexts t idx).findSome? rangeYearHint
        = (meetingCellTexts t idx).findSome? cellFullYear?)) = true) :
    infer_term_dates_from_table t headerKeys todayYear
      = spec_infer_claim t headerKeys todayYear
    ∧ ∀ a b, infer_term_dates_from_table t headerKeys todayYear
        = (some a, some b) → a ≤ b := by
  constructor
  · unfold infer_term_dates_from_table spec_infer_claim
    cases hidx : headerKeys.findIdx?
        (fun k => hasSub k "meeting".data && hasSub k "date".data) with
    | none => rfl
    | some idx =>
      rw [hidx] at hagree
      simp only [Option.elim] at hagree
      have hag := of_decide_eq_true hagree
      dsimp only
      rw [hag]
  · intro a b h
    unfold infer_term_dates_from_table at h
    cases hidx : headerKeys.findIdx?
        (fun k => hasSub k "meeting".data && hasSub k "date".data) with
    | none =>
      rw [hidx] at h
      simp at h
    | some idx =>
      rw [hidx] at h
      dsimp only at h
      cases hflat : (meetingCellTexts t idx).flatMap
          (fun txt => parse_meeting_dates_cell txt
            (some (((meetingCellTexts t idx).findSome? rangeYearHint).getD todayYear))
            todayYear) with
      | nil =>
        rw [hflat] at h
        simp at h
      | cons d ds =>
        rw [hflat] at h
        simp only [Prod.mk.injEq, Option.some.injEq] at h
        obtain ⟨ha, hb⟩ := h
        subst ha
        subst hb
        exact Nat.le_trans (foldl_min_le_init ds d) (le_foldl_max_init ds d)

/-- Witness for the amended C8: a column whose only fully-qualified tokens
sit in its range cell; the code agrees with the claim's rule there, and the
inferred span is ordered. -/
theorem c8_witness :
    infer_term_dates_from_table
      ⟨true, [[(true, "Meeting Date".data)],
              [(false, "05/01/2026 - 09/02/2026".data)],
              [(false, "6/1".data)]]⟩
      ["meeting date".data] 2027
      = spec_infer_claim
      ⟨true, [[(true, "Meeting Date".data)],
              [(false, "05/01/2026 - 09/02/2026".data)],
              [(false, "6/1".data)]]⟩
      ["meeting date".data] 2027
    ∧ (739621 : Nat) ≤ 739656 :=
  ⟨(c8_term_inference
      ⟨true, [[(true, "Meeting Date".data)],
              [(false, "05/01/2026 - 09/02/2026".data)],
              [(false, "6/1".data)]]⟩
      ["meeting date".data] 2027 (by decide)).1,
   (c8_term_inference
      ⟨true, [[(true, "Meeting Date".data)],
              [(false, "05/01/2026 - 09/02/2026".data)],
              [(false, "6/1".data)]]⟩
      ["meeting date".data] 2027 (by decide)).2 739621 739656 (by decide)⟩

theorem assignField_timeRange (v : RowVals) (key val : Str) :
    (assignField v key val).timeRange = v.timeRange
    ∨ (assignField v key val).timeRange = val := by
  delta assignField
  by_cases h1 : hasSub key "class code".data = true ∧ val ≠ []
  · rw [if_pos h1]
    by_cases h1b : v.subj = [] ∧ v.catalog = [] ∧ v.sect = []
    · rw [if_pos h1b]; exact Or.inl rfl
    · rw [if_neg h1b]; exact Or.inl rfl
  · rw [if_neg h1]
    by_cases h2 : hasSub key "class nbr".data = true ∧ val ≠ []
    · rw [if_pos h2]; exact Or.inl rfl
    · rw [if_neg h2]
      by_cases h3 : hasSub key "subject".data = true ∧ v.subj = []
      · rw [if_pos h3]; exact Or.inl rfl
      · rw [if_neg h3]
        by_cases h4 : (hasSub key "course title".data = true
            ∨ hasSub key "title".data = true ∨ hasSub key "descr".data = true)
            ∧ v.title = []
        · rw [if_pos h4]; exact Or.inl rfl
        · rw [if_neg h4]
          by_cases h5 : (hasSub key "course".data = true
              ∨ hasSub key "catalog".data = true) ∧ v.catalog = []
              ∧ ¬hasSub key "class nbr".data = true
          · rw [if_pos h5]; exact Or.inl rfl
          · rw [if_neg h5]
            by_cases h6 : (hasSub key "section".data = true
                ∨ hasSub key "class".data = true) ∧ v.sect = []
                ∧ ¬hasSub key "class nbr".data = true
            · rw [if_pos h6]; exact Or.inl rfl
            · rw [if_neg h6]
              by_cases h7 : (hasSub key "instructor".data = true
                  ∨ hasSub key "teacher".data = true
                  ∨ hasSub key "teaching staff".data = true) ∧ v.instr = []
              · rw [if_pos h7]; exact Or.inl rfl
              · rw [if_neg h7]
                by_cases h8 : hasSub key "period".data = true
                · rw [if_pos h8]
                  rcases hw : wsTokens val with _ | ⟨d, rest⟩
                  · exact Or.inr rfl
                  · exact Or.inr rfl
                · rw [if_neg h8]
                  by_cases h9 : hasSub key "day".data = true ∧ v.day = []
                  · rw [if_pos h9]; exact Or.inl rfl
                  · rw [if_neg h9]
                    by_cases h10 : hasSub key "time".data = true ∧ v.timeRange = []
                    · rw [if_pos h10]; exact Or.inr rfl
                    · rw [if_neg h10]
                      by_cases h11 : (hasSub key "room".data = true
                          ∨ hasSub key "venue".data = true
                          ∨ hasSub key "location".data = true) ∧ v.room = []
                      · rw [if_pos h11]; exact Or.inl rfl
                      · rw [if_neg h11]; exact Or.inl rfl

theorem foldAssign_timeRange (tds : List Str) :
    ∀ (l : List (Str × Str)) (v : RowVals),
      (∀ kv ∈ l, kv.2 ∈ tds) →
      (v.timeRange = [] ∨ v.timeRange ∈ tds) →
      ((l.foldl (fun v kv => assignField v kv.1 kv.2) v).timeRange = []
        ∨ (l.foldl (fun v kv => assignField v kv.1 kv.2) v).timeRange ∈ tds) := by
  intro l
  induction l with
  | nil => intro v _ hv; exact hv
  | cons kv rest ih =>
    intro v hmem hv
    rw [List.foldl_cons]
    apply ih _ (fun kv2 h => hmem kv2 (List.mem_cons_of_mem _ h))
    rcases assignField_timeRange v kv.1 kv.2 with h | h
    · rw [h]; exact hv
    · rw [h]; exact Or.inr (hmem kv (List.mem_cons_self _ _))

theorem rowValsOf_timeRange (hk : List Str) (tds : List Str) :
    (rowValsOf hk tds).timeRange = [] ∨ (rowValsOf hk tds).timeRange ∈ tds := by
  unfold rowValsOf
  apply foldAssign_timeRange tds
  · intro kv hkv
    obtain ⟨k, val⟩ := kv
    exact (List.of_mem_zip hkv).2
  · exact Or.inl rfl

theorem teachEmit_ord (ts' te' : Date) (hint : Str) (sel : List Str)
    (v : RowVals) (dn : Str) (tse : Str × Str) (st1 : TState)
    (hts : clockVal tse.1 < clockVal tse.2)
    (hinv : ∀ kr ∈ st1.recsK,
      clockVal kr.2.MEETING_TIME_START < clockVal kr.2.MEETING_TIME_END) :
    ∀ kr ∈ (teachEmit ts' te' hint sel v dn tse st1).recsK,
      clockVal kr.2.MEETING_TIME_START < clockVal kr.2.MEETING_TIME_END := by
  intro kr hkr
  simp only [teachEmit] at hkr
  split at hkr
  · exact hinv kr hkr
  · split at hkr
    · exact hinv kr hkr
    · rcases List.mem_append.mp hkr with h | h
      · exact hinv kr h
      · rw [List.mem_singleton] at h
        subst h
        exact hts

theorem teachRowStep_ord (hk : List Str) (ts' te' : Date) (hint : Str)
    (sel : List Str) (st : TState) (row : TRow) (T : List Str)
    (hsub : ∀ x ∈ tdTexts row, x ∈ T)
    (hord : ∀ txt ∈ T, timeOrdT txt = true)
    (hinv : ∀ kr ∈ st.recsK,
      clockVal kr.2.MEETING_TIME_START < clockVal kr.2.MEETING_TIME_END) :
    ∀ kr ∈ (teachRowStep hk ts' te' hint sel st row).recsK,
      clockVal kr.2.MEETING_TIME_START < clockVal kr.2.MEETING_TIME_END := by
  intro kr hkr
  simp only [teachRowStep] at hkr
  split at hkr
  · exact hinv kr hkr
  · split at hkr
    · next dn tse heq1 heq2 =>
      have hts : clockVal tse.1 < clockVal tse.2 := by
        by_cases hne : (rowValsOf hk (tdTexts row)).timeRange ≠ []
        · rw [if_pos hne] at heq2
          have hmemT : (rowValsOf hk (tdTexts row)).timeRange ∈ T := by
            rcases rowValsOf_timeRange hk (tdTexts row) with h0 | h0
            · exact absurd h0 hne
            · exact hsub _ h0
          have hT := hord _ hmemT
          unfold timeOrdT at hT
          rw [heq2] at hT
          exact of_decide_eq_true hT
        · rw [if_neg hne] at heq2
          cases heq2
      exact teachEmit_ord ts' te' hint sel _ _ _ _ hts
        (fun kr2 h2 => hinv kr2 (by rwa [teachCarry_recsK] at h2)) kr hkr
    · rw [teachCarry_recsK] at hkr
      exact hinv kr hkr

theorem teachFold_ord (hk : List Str) (ts' te' : Date) (hint : Str)
    (sel : List Str) (T : List Str)
    (hord : ∀ txt ∈ T, timeOrdT txt = true) :
    ∀ (rows : List TRow) (st : TState),
      (∀ row ∈ rows, ∀ x ∈ tdTexts row, x ∈ T) →
      (∀ kr ∈ st.recsK,
        clockVal kr.2.MEETING_TIME_START < clockVal kr.2.MEETING_TIME_END) →
      ∀ kr ∈ (rows.foldl (teachRowStep hk ts' te' hint sel) st).recsK,
        clockVal kr.2.MEETING_TIME_START < clockVal kr.2.MEETING_TIME_END := by
  intro rows
  induction rows with
  | nil => intro st _ hinv; exact hinv
  | cons r rs ih =>
    intro st hsub hinv
    exact ih _ (fun row h => hsub row (List.mem_cons_of_mem _ h))
      (teachRowStep_ord hk ts' te' hint sel st r T
        (hsub r (List.mem_cons_self _ _)) hord hinv)

theorem foldl_pick_mem {α : Type} :
    ∀ (cs : List (Nat × α)) (c : Nat × α),
      cs.foldl (fun best x => if x.1 > best.1 then x else best) c ∈ c :: cs := by
  intro cs
  induction cs with
  | nil => intro c; exact List.mem_cons_self _ _
  | cons x xs ih =>
    intro c
    rw [List.foldl_cons]
    rcases List.mem_cons.mp (ih (if x.1 > c.1 then x else c)) with h | h
    · rw [h]
      split
      · exact List.mem_cons_of_mem _ (List.mem_cons_self _ _)
      · exact List.mem_cons_self _ _
    · exact List.mem_cons_of_mem _ (List.mem_cons_of_mem _ h)

theorem guess_mem {soup : List TTable} {t : TTable}
    (h : guess_timetable_table soup = some t) : t ∈ soup := by
  unfold guess_timetable_table at h
  cases hf : soup.find? (·.gvDetail) with
  | some t2 =>
    rw [hf] at h
    injection h with h
    subst h
    exact List.mem_of_find?_eq_some hf
  | none =>
    rw [hf] at h
    cases hfm : soup.filterMap (fun t => (tableScore t).map (fun s => (s, t))) with
    | nil =>
      rw [hfm] at h
      cases h
    | cons c cs =>
      rw [hfm] at h
      injection h with h
      subst h
      have hall : ∀ p ∈ c :: cs, p.2 ∈ soup := by
        intro p hp
        rw [← hfm] at hp
        obtain ⟨a, ha, hfa⟩ := List.mem_filterMap.mp hp
        cases hsc : tableScore a with
        | none => rw [hsc] at hfa; cases hfa
        | some s =>
          rw [hsc] at hfa
          injection hfa with hfa
          rw [← hfa]
          exact ha
      exact hall _ (foldl_pick_mem cs c)

theorem teach_keyed_ok_shape_mem {soup : List TTable} {sD eD : Option Date}
    {hint : Str} {sel : List Str} {ty : Nat} {lk : List (TKey × MRec)}
    (h : parse_teaching_html_keyed soup sD eD hint sel ty = .ok lk) :
    ∃ table, table ∈ soup ∧ ∃ (headerKeys : List Str) (ts te : Date),
      lk = (table.rows.foldl
        (teachRowStep headerKeys ts te hint
          ((sel.map pyStrip).filter (fun s => s ≠ []))) {}).recsK := by
  simp only [parse_teaching_html_keyed] at h
  cases hg : guess_timetable_table soup with
  | none =>
    rw [hg] at h
    cases h
  | some table =>
    rw [hg] at h
    dsimp only at h
    cases hh : headerTexts table with
    | none =>
      rw [hh] at h
      cases h
    | some headerRow =>
      rw [hh] at h
      dsimp only at h
      obtain ⟨ts, te, hb⟩ := finishIfDates_ok h
      exact ⟨table, guess_mem hg, headerRow.map lowerS, ts, te, hb⟩


theorem timeFold_pick (ct : Str) :
    ∀ (ls : List Str) (acc : Str × List Str),
      (ls.foldl (fun (acc : Str × List Str) line =>
        if (parse_time_range_schedule line).isSome then (line, acc.2)
        else if line ≠ ct then (acc.1, acc.2 ++ [line]) else acc) acc).1 = acc.1
      ∨ (ls.foldl (fun (acc : Str × List Str) line =>
        if (parse_time_range_schedule line).isSome then (line, acc.2)
        else if line ≠ ct then (acc.1, acc.2 ++ [line]) else acc) acc).1 ∈ ls := by
  intro ls
  induction ls with
  | nil => intro acc; exact Or.inl rfl
  | cons x xs ih =>
    intro acc
    rw [List.foldl_cons]
    rcases ih (if (parse_time_range_schedule x).isSome then (x, acc.2)
        else if x ≠ ct then (acc.1, acc.2 ++ [x]) else acc) with h | h
    · rw [h]
      have hsel : (if (parse_time_range_schedule x).isSome then (x, acc.2)
          else if x ≠ ct then (acc.1, acc.2 ++ [x]) else acc).1 = x
          ∨ (if (parse_time_range_schedule x).isSome then (x, acc.2)
          else if x ≠ ct then (acc.1, acc.2 ++ [x]) else acc).1 = acc.1 := by
        split
        · exact Or.inl rfl
        · split
          · exact Or.inr rfl
          · exact Or.inr rfl
      rcases hsel with h2 | h2
      · rw [h2]
        exact Or.inr (List.mem_cons_self _ _)
      · rw [h2]
        exact Or.inl rfl
    · exact Or.inr (List.mem_cons_of_mem _ h)

theorem weeklyBlockRec_prop {t : STable} {dayCols : List (Nat × Str)}
    {rIdx cIdx : Nat} {cell : SCell} {raw : RawRec}
    (h : weeklyBlockRec t dayCols rIdx cIdx cell = some raw) :
    parse_time_range_schedule raw.TIME_RANGE = some (raw.TIME_START, raw.TIME_END)
    ∧ ∃ rawLines, cell.spanLines = some rawLines
        ∧ raw.TIME_RANGE ∈ processLines rawLines := by
  simp only [weeklyBlockRec] at h
  split at h
  · cases h
  · split at h
    · cases h
    · next rawLines hspan =>
      split at h
      · cases h
      · next hlen =>
        split at h
        · cases h
        · next ts hts =>
          split at h
          · cases h
          · next dayName hday =>
            injection h with h
            subst h
            dsimp only
            constructor
            · exact hts
            · refine ⟨rawLines, hspan, ?_⟩
              split
              · next h1 =>
                cases hg : (processLines rawLines).get? 2 with
                | none =>
                  exfalso
                  have h2 := List.get?_eq_none.mp hg
                  omega
                | some x =>
                  exact List.get?_mem hg
              · next h1 =>
                rcases timeFold_pick (((processLines rawLines).get? 1).getD [])
                    ((processLines rawLines).drop 1) ([], []) with hc | hc
                · exact absurd hc h1
                · exact List.mem_of_mem_drop hc

theorem snd_mem_of_mem_enum {α : Type} {x : Nat × α} {l : List α}
    (h : x ∈ l.enum) : x.2 ∈ l := by
  rw [(List.mem_enumFrom h).2.2]
  exact List.getElem_mem _

theorem weekly_raw_prop (t : STable) :
    ∀ raw ∈ parse_weekly_grid (some t),
      parse_time_range_schedule raw.TIME_RANGE
        = some (raw.TIME_START, raw.TIME_END)
      ∧ raw.TIME_RANGE ∈ t.flatMap (fun r => r.tds.flatMap (fun c =>
          match c.spanLines with
          | none => []
          | some raw2 => processLines raw2)) := by
  intro raw hmem
  simp only [parse_weekly_grid] at hmem
  split at hmem
  · cases hmem
  · obtain ⟨rp, hrp, hcell⟩ := List.mem_flatMap.mp hmem
    obtain ⟨cp, hcp, hwb⟩ := List.mem_filterMap.mp hcell
    obtain ⟨h1, rawLines, hspan, h2⟩ := weeklyBlockRec_prop hwb
    refine ⟨h1, List.mem_flatMap.mpr ⟨rp.2, snd_mem_of_mem_enum hrp,
      List.mem_flatMap.mpr ⟨cp.2, snd_mem_of_mem_enum hcp, ?_⟩⟩⟩
    rw [hspan]
    exact h2

theorem fieldFind_mem {els : List El} {pats : List Str} {idx s : Str}
    (h : fieldFind els pats idx = s) (hne : s ≠ []) :
    s ∈ els.map (fun el => pyStrip el.etext) := by
  unfold fieldFind at h
  cases hf : els.find? (fun el =>
      decide (el.eid.length ≥ idx.length + 1
        ∧ el.eid.drop (el.eid.length - (idx.length + 1)) = '$' :: idx) &&
      pats.any (fun p => hasSubCI (el.eid.take (el.eid.length - (idx.length + 1))) p)) with
  | none =>
    rw [hf] at h
    exact absurd h.symm hne
  | some el =>
    rw [hf] at h
    exact List.mem_map.mpr ⟨el, List.mem_of_find?_eq_some hf, h⟩

theorem scroll_raw_prop (els : List El) :
    ∀ raw ∈ parse_scroll_area els,
      parse_time_range_schedule raw.TIME_RANGE
        = some (raw.TIME_START, raw.TIME_END)
      ∧ raw.TIME_RANGE ∈ els.map (fun el => pyStrip el.etext) := by
  intro raw hmem
  delta parse_scroll_area at hmem
  obtain ⟨el, hel, hraw⟩ := List.mem_flatMap.mp hmem
  cases hidx : idxSuffix? el.eid with
  | none =>
    rw [hidx] at hraw
    cases hraw
  | some idx =>
    rw [hidx] at hraw
    dsimp only at hraw
    split at hraw
    · cases hraw
    · cases hts : (if fieldFind els ["class_time".data, "mtg_time".data,
          "meeting_time".data] idx ≠ [] then
        parse_time_range_schedule (fieldFind els ["class_time".data,
          "mtg_time".data, "meeting_time".data] idx) else none) with
      | none =>
        rw [hts] at hraw
        cases hraw
      | some ts =>
        rw [hts] at hraw
        dsimp only at hraw
        obtain ⟨d, hd, hrweq⟩ := List.mem_map.mp hraw
        subst hrweq
        dsimp only
        by_cases htne : fieldFind els ["class_time".data, "mtg_time".data,
            "meeting_time".data] idx ≠ []
        · rw [if_pos htne] at hts
          exact ⟨hts, fieldFind_mem rfl htne⟩
        · rw [if_neg htne] at hts
          cases hts

theorem sched_keyed_ok_raws {soup : SSoup} {sD eD : Option Date} {tY tM : Nat}
    {ls : List (SKey × MRec)}
    (h : parse_schedule_html_keyed soup sD eD tY tM = .ok ls) :
    ∃ (raws : List RawRec) (ts te : Date),
      (∀ raw ∈ raws,
        parse_time_range_schedule raw.TIME_RANGE
          = some (raw.TIME_START, raw.TIME_END)
        ∧ raw.TIME_RANGE ∈ schedTexts soup)
      ∧ ls = (raws.foldl (schedRecStep ts te) ([], [])).2 := by
  simp only [parse_schedule_html_keyed] at h
  by_cases h1 : parse_weekly_grid soup.weekly = []
  · rw [if_pos h1] at h
    by_cases h2 : parse_scroll_area soup.els = []
    · rw [if_pos h2] at h
      cases h
    · rw [if_neg h2] at h
      obtain ⟨ts, te, hb⟩ := finishIfDates_ok h
      refine ⟨parse_scroll_area soup.els, ts, te, ?_, hb⟩
      intro raw hr
      obtain ⟨hp, hm⟩ := scroll_raw_prop soup.els raw hr
      exact ⟨hp, by unfold schedTexts; exact List.mem_append_right _ hm⟩
  · cases hw : soup.weekly with
    | none =>
      rw [hw] at h1
      exact absurd rfl h1
    | some t =>
      rw [hw] at h h1
      rw [if_neg h1, if_neg h1] at h
      obtain ⟨ts, te, hb⟩ := finishIfDates_ok h
      refine ⟨parse_weekly_grid (some t), ts, te, ?_, hb⟩
      intro raw hr
      obtain ⟨hp, hm⟩ := weekly_raw_prop t raw hr
      refine ⟨hp, ?_⟩
      unfold schedTexts
      rw [hw]
      exact List.mem_append_left _ hm

theorem schedRecStep_ord (ts' te' : Date)
    (st : List SKey × List (SKey × MRec)) (raw : RawRec)
    (hq1 : parse_time_range_schedule raw.TIME_RANGE
      = some (raw.TIME_START, raw.TIME_END))
    (hq2 : clockVal raw.TIME_START < clockVal raw.TIME_END)
    (hinv : ∀ kr ∈ st.2,
      clockVal kr.2.MEETING_TIME_START < clockVal kr.2.MEETING_TIME_END) :
    ∀ kr ∈ (schedRecStep ts' te' st raw).2,
      clockVal kr.2.MEETING_TIME_START < clockVal kr.2.MEETING_TIME_END := by
  intro kr hkr
  simp only [schedRecStep] at hkr
  split at hkr
  · exact hinv kr hkr
  · next dte hdte =>
    split at hkr
    · exact hinv kr hkr
    · rcases List.mem_append.mp hkr with hm | hm
      · exact hinv kr hm
      · simp only [List.mem_singleton] at hm
        subst hm
        have hse : dte.2.1 = raw.TIME_START ∧ dte.2.2 = raw.TIME_END := by
          by_cases hd : raw.DAY = [] ∨ raw.TIME_START = [] ∨ raw.TIME_END = []
          · rw [if_pos hd] at hdte
            by_cases hne : raw.TIME_RANGE ≠ []
            · rw [if_pos hne] at hdte
              rw [hq1] at hdte
              dsimp only at hdte
              cases hdp : (if raw.DAY ≠ [] then parse_day_pattern raw.DAY else []) with
              | nil =>
                rw [hdp] at hdte
                cases hdte
              | cons d rest =>
                rw [hdp] at hdte
                injection hdte with hdte
                rw [← hdte]
                exact ⟨rfl, rfl⟩
            · rw [if_neg hne] at hdte
              cases hdte
          · rw [if_neg hd] at hdte
            injection hdte with hdte
            rw [← hdte]
            exact ⟨rfl, rfl⟩
        show clockVal dte.2.1 < clockVal dte.2.2
        rw [hse.1, hse.2]
        exact hq2

theorem schedFold_ord (ts' te' : Date) :
    ∀ (raws : List RawRec) (st : List SKey × List (SKey × MRec)),
      (∀ raw ∈ raws,
        parse_time_range_schedule raw.TIME_RANGE
          = some (raw.TIME_START, raw.TIME_END)
        ∧ clockVal raw.TIME_START < clockVal raw.TIME_END) →
      (∀ kr ∈ st.2,
        clockVal kr.2.MEETING_TIME_START < clockVal kr.2.MEETING_TIME_END) →
      ∀ kr ∈ (raws.foldl (schedRecStep ts' te') st).2,
        clockVal kr.2.MEETING_TIME_START < clockVal kr.2.MEETING_TIME_END := by
  intro raws
  induction raws with
  | nil => intro st _ hinv; exact hinv
  | cons r rs ih =>
    intro st hq hinv
    obtain ⟨hq1, hq2⟩ := hq r (List.mem_cons_self _ _)
    exact ih _ (fun raw h => hq raw (List.mem_cons_of_mem _ h))
      (schedRecStep_ord ts' te' st r hq1 hq2 hinv)

/-- C4 counterexample: a row whose time cell is the reversed range
`"21:15 - 18:30"` is accepted verbatim — `parse_teaching_html` returns a
record with `MEETING_TIME_START = "21:15"` strictly LATER than
`MEETING_TIME_END = "18:30"` as same-day clock times; neither parser checks
start < end. -/
theorem c4_counterexample :
    (parse_teaching_html
      [⟨true, [[(true, "Day".data), (true, "Time".data), (true, "Class Code".data)],
               [(false, "Mon".data), (false, "21:15 - 18:30".data),
                (false, "ROSE5720-".data)]]⟩]
      (some 739621) (some 739700) [] [] 2026).toOption.map
        (List.map (fun r => (r.MEETING_TIME_START, r.MEETING_TIME_END)))
    = some [("21:15".data, "18:30".data)]
    ∧ clockVal "18:30".data < clockVal "21:15".data := by
  exact ⟨by rfl, by decide⟩

/-- C4 (amended): the extractors copy each parsed time pair into the record
unchanged and perform no ordering check; consequently every returned record
satisfies `start < end` (as same-day clock times) exactly when every time
text reachable from the input parses to an ordered pair, and a reversed
input range yields a reversed record. -/
theorem c4_time_ordering
    (tsoup : List TTable) (sD eD : Option Date) (hint : Str) (sel : List Str)
    (ty : Nat) (ssoup : SSoup) (sD2 eD2 : Option Date) (tY tM : Nat)
    (lt ls : List MRec)
    (ht : parse_teaching_html tsoup sD eD hint sel ty = .ok lt)
    (hs : parse_schedule_html ssoup sD2 eD2 tY tM = .ok ls)
    (hordT : ∀ txt ∈ teachTexts tsoup, timeOrdT txt = true)
    (hordS : ∀ txt ∈ schedTexts ssoup, timeOrdS txt = true) :
    (∀ r ∈ lt, clockVal r.MEETING_TIME_START < clockVal r.MEETING_TIME_END)
    ∧ ∀ r ∈ ls, clockVal r.MEETING_TIME_START < clockVal r.MEETING_TIME_END := by
  constructor
  · intro r hr
    unfold parse_teaching_html at ht
    cases hk : parse_teaching_html_keyed tsoup sD eD hint sel ty with
    | error e =>
      rw [hk] at ht
      cases ht
    | ok lk =>
      rw [hk] at ht
      simp only [Except.map] at ht
      injection ht with ht
      subst ht
      obtain ⟨kr, hkm, hk2⟩ := List.mem_map.mp hr
      obtain ⟨table, htm, headerKeys, ts, te, hlk⟩ := teach_keyed_ok_shape_mem hk
      subst hlk
      subst hk2
      exact teachFold_ord headerKeys ts te hint _ (teachTexts tsoup) hordT
        table.rows {}
        (fun row hrow x hx => List.mem_flatMap.mpr
          ⟨table, htm, List.mem_flatMap.mpr ⟨row, hrow, hx⟩⟩)
        (fun kr2 h2 => absurd h2 (List.not_mem_nil _)) kr hkm
  · intro r hr
    unfold parse_schedule_html at hs
    cases hk : parse_schedule_html_keyed ssoup sD2 eD2 tY tM with
    | error e =>
      rw [hk] at hs
      cases hs
    | ok lk =>
      rw [hk] at hs
      simp only [Except.map] at hs
      injection hs with hs
      subst hs
      obtain ⟨kr, hkm, hk2⟩ := List.mem_map.mp hr
      obtain ⟨raws, ts, te, hprop, hlk⟩ := sched_keyed_ok_raws hk
      subst hlk
      subst hk2
      refine schedFold_ord ts te raws ([], []) ?_
        (fun kr2 h2 => absurd h2 (List.not_mem_nil _)) kr hkm
      intro raw hraw
      obtain ⟨hp, hm⟩ := hprop raw hraw
      refine ⟨hp, ?_⟩
      have hT := hordS _ hm
      unfold timeOrdS at hT
      rw [hp] at hT
      exact of_decide_eq_true hT

/-- Witness for the amended C4 on concrete ordered inputs to both modules. -/
theorem c4_witness :
    clockVal "09:30".data < clockVal "10:15".data := by
  exact (c4_time_ordering
    [⟨true, [[(true, "Class Code".data), (true, "Class Nbr".data),
              (true, "Day".data), (true, "Time".data)],
             [(false, "ROSE5720-".data), (false, "9578".data),
              (false, "Mon".data), (false, "9:30 - 10:15".data)]]⟩]
    (some 739621) (some 739700) [] [] 2026
    ⟨none, [⟨"CLASSNAME$0".data, [], "ROSE5720 - Topic".data⟩,
            ⟨"CLASS_TIME$0".data, [], "09:30 - 10:15".data⟩,
            ⟨"MTG_PAT$0".data, [], "Mo".data⟩]⟩
    (some 739621) (some 739700) 2026 1
    [{ CLASS_CODE_RAW := "ROSE5720-".data, CLASS_NBR := "9578".data,
       SUBJECT := "ROSE".data, CATALOG_NBR := "5720".data,
       CLASS_SECTION := "-".data, DESCR := "5720".data,
       INSTRUCTORS := [], FDESCR := [], COMDESC := "ROSE".data,
       START_DT := 739621, END_DT := 739700,
       MEETING_TIME_START := "09:30".data, MEETING_TIME_END := "10:15".data }]
    [{ CLASS_CODE_RAW := "ROSE5720".data, CLASS_NBR := [],
       SUBJECT := "ROSE".data, CATALOG_NBR := "5720".data,
       CLASS_SECTION := [], DESCR := "Topic".data,
       INSTRUCTORS := [], FDESCR := [], COMDESC := "ROSE".data,
       START_DT := 739621, END_DT := 739700,
       MEETING_TIME_START := "09:30".data, MEETING_TIME_END := "10:15".data }]
    (by rfl) (by rfl) (by decide) (by decide)).1
    { CLASS_CODE_RAW := "ROSE5720-".data, CLASS_NBR := "9578".data,
      SUBJECT := "ROSE".data, CATALOG_NBR := "5720".data,
      CLASS_SECTION := "-".data, DESCR := "5720".data,
      INSTRUCTORS := [], FDESCR := [], COMDESC := "ROSE".data,
      START_DT := 739621, END_DT := 739700,
      MEETING_TIME_START := "09:30".data, MEETING_TIME_END := "10:15".data }
    (List.mem_singleton.mpr rfl)

end CuhkTT
